import Mathlib

/-!
# A verification development for the `todo` application widgets

Shallow embedding of the widget code of `internal/ui` (`textbox.go`, `button.go`,
`todoitem.go`) and of the record model of `internal/models` (`todo.go`):

* Go `string` values are byte sequences (`GoString`); `len` is the byte length and a slice
  expression `s[lo:hi]` panics unless `0 ≤ lo ≤ hi ≤ len(s)`.  A panic is the value `none`.
* Go `int` values are modelled by `Int`.  No arithmetic of the modelled code can wrap around
  on the states considered: cursor positions stay within `[0, len(Text)]` and a Go string is
  shorter than `2^63` bytes.
* The per-tick global input state of the ebiten library (pointer position, buttons, typed
  characters, keys that were just pressed, the clock) is an explicit `Input` record.
* The colour fields of `TextBox` are left out: no modelled control flow reads them.
* The text-measurement call `text.BoundString(basicfont.Face7x13, s).Max.X` belongs to the
  rendering library; the layout code takes it as a parameter `measure`, and
  `boundStringMaxX` is that library function: it decodes the bytes into runes as Go does and
  counts one glyph of the fixed-width face per rune.
* A clock value (`time.Time`) is a number of nanoseconds; `time.Time.Sub` saturates to
  the range of a 64-bit duration.
* A pointer to a record (`*models.Todo` in `TodoItem`) is modelled by the record it refers
  to; a slice of records is a list.
* A callback field (`OnClick`) is recorded by whether it is non-nil, and a call of it is an
  observable event that `Update` reports.  The callbacks installed in this repository write
  none of the fields `Button.Update` reads or writes (bounds, `Hovered`, `Pressed`,
  `Enabled`, `OnClick`); the filter callback recolours buttons, nothing more.
-/

namespace Todo

/-! ## Go strings -/

/-- One byte of a Go string. -/
abbrev Byte := Fin 256

/-- A Go `string`: a finite sequence of bytes. -/
abbrev GoString := List Byte

/-- The slice expression `s[lo:hi]`; `none` is the run-time panic for indices out of range. -/
def slice (s : GoString) (lo hi : Int) : Option GoString :=
  if 0 ≤ lo ∧ lo ≤ hi ∧ hi ≤ (s.length : Int) then
    some ((s.drop lo.toNat).take (hi.toNat - lo.toNat))
  else none

/-- The slice expression `s[:hi]`. -/
def sliceTo (s : GoString) (hi : Int) : Option GoString := slice s 0 hi

/-- The slice expression `s[lo:]`. -/
def sliceFrom (s : GoString) (lo : Int) : Option GoString := slice s lo (s.length : Int)

/-- The conversion `string(r)` of a rune: its UTF-8 encoding, where a value that is not a
valid code point (negative, above U+10FFFF, or a surrogate) gives the encoding of U+FFFD. -/
def runeString (r : Int) : GoString :=
  if r < 0 ∨ 0x10FFFF < r ∨ (0xD800 ≤ r ∧ r ≤ 0xDFFF) then
    [0xEF, 0xBF, 0xBD]
  else
    let n := r.toNat
    if n < 0x80 then [Fin.ofNat n]
    else if n < 0x800 then [Fin.ofNat (0xC0 + n / 64), Fin.ofNat (0x80 + n % 64)]
    else if n < 0x10000 then
      [Fin.ofNat (0xE0 + n / 4096), Fin.ofNat (0x80 + n / 64 % 64), Fin.ofNat (0x80 + n % 64)]
    else
      [Fin.ofNat (0xF0 + n / 262144), Fin.ofNat (0x80 + n / 4096 % 64),
        Fin.ofNat (0x80 + n / 64 % 64), Fin.ofNat (0x80 + n % 64)]

/-- The predicate `unicode.IsControl`: the code points of category Cc, that is
U+0000..U+001F and U+007F..U+009F. -/
def isControl (r : Int) : Bool :=
  (decide (0 ≤ r) && decide (r ≤ 0x1F)) || (decide (0x7F ≤ r) && decide (r ≤ 0x9F))

/-! ## Per-tick input -/

/-- What the ebiten input functions answer during one tick. -/
structure Input where
  /-- The pair `ebiten.CursorPosition()`. -/
  cursorX : Int
  cursorY : Int
  /-- The value `ebiten.IsMouseButtonPressed(ebiten.MouseButtonLeft)`. -/
  mouseDown : Bool
  /-- The value `inpututil.IsMouseButtonJustPressed(ebiten.MouseButtonLeft)`. -/
  mouseJustPressed : Bool
  /-- The runes `ebiten.AppendInputChars(nil)`. -/
  chars : List Int
  /-- The values `inpututil.IsKeyJustPressed(k)` for the keys the widgets read. -/
  keyArrowLeft : Bool
  keyArrowRight : Bool
  keyHome : Bool
  keyEnd : Bool
  keyDelete : Bool
  keyBackspace : Bool
  keyEnter : Bool
  keyEscape : Bool
  /-- The clock `time.Now()`, in nanoseconds. -/
  now : Int
  deriving DecidableEq, Repr

/-- A tick on which nothing is typed, pressed or clicked. -/
def Input.idle : Input :=
  { cursorX := 0, cursorY := 0, mouseDown := false, mouseJustPressed := false, chars := [],
    keyArrowLeft := false, keyArrowRight := false, keyHome := false, keyEnd := false,
    keyDelete := false, keyBackspace := false, keyEnter := false, keyEscape := false, now := 0 }

/-- A tick on which exactly the runes `rs` are typed. -/
def Input.typing (rs : List Int) (now : Int) : Input :=
  { Input.idle with chars := rs, now := now }

/-- A tick on which exactly the Backspace key was just pressed. -/
def Input.backspace (now : Int) : Input :=
  { Input.idle with keyBackspace := true, now := now }

/-- A tick on which exactly the Delete key was just pressed. -/
def Input.delete (now : Int) : Input :=
  { Input.idle with keyDelete := true, now := now }

/-- A tick that only reports the pointer: its position and whether the primary button is
held down. -/
def Input.pointer (x y : Int) (down : Bool) : Input :=
  { Input.idle with cursorX := x, cursorY := y, mouseDown := down }

/-! ## TextBox (`textbox.go`) -/

/-- The `TextBox` struct (colour fields left out). -/
structure TextBox where
  X : Int
  Y : Int
  Width : Int
  Height : Int
  Text : GoString
  Focused : Bool
  CursorPos : Int
  ShowCursor : Bool
  lastCursorToggle : Int
  PlaceholderText : GoString
  MaxLength : Int
  deriving DecidableEq, Repr

/-- The constructor `NewTextBox`, called at clock value `now`. -/
def NewTextBox (x y width height : Int) (placeholder : GoString) (now : Int) : TextBox :=
  { X := x, Y := y, Width := width, Height := height, Text := [],
    PlaceholderText := placeholder, CursorPos := 0, ShowCursor := true,
    lastCursorToggle := now, Focused := false, MaxLength := 100 }

namespace TextBox

/-- The method `Contains`. -/
def Contains (tb : TextBox) (x y : Int) : Bool :=
  decide (x ≥ tb.X) && decide (x ≤ tb.X + tb.Width) &&
    decide (y ≥ tb.Y) && decide (y ≤ tb.Y + tb.Height)

/-- Lines 52-55 of `Update`: a fresh primary click sets the focus from its position. -/
def clickFocus (inp : Input) (tb : TextBox) : TextBox :=
  if inp.mouseJustPressed then { tb with Focused := tb.Contains inp.cursorX inp.cursorY }
  else tb

/-- Lines 62-65 of `Update`: the cursor blink timer (500 ms). -/
def blink (inp : Input) (tb : TextBox) : TextBox :=
  if inp.now - tb.lastCursorToggle > 500000000 then
    { tb with ShowCursor := !tb.ShowCursor, lastCursorToggle := inp.now }
  else tb

/-- Lines 76-79 and 107-110 of `Update`: the body shared by both backspace branches,
guarded by `tb.CursorPos > 0`. -/
def removeBefore (tb : TextBox) : Option TextBox :=
  if tb.CursorPos > 0 then
    (sliceTo tb.Text (tb.CursorPos - 1)).bind fun a =>
      (sliceFrom tb.Text tb.CursorPos).bind fun b =>
        some { tb with Text := a ++ b, CursorPos := tb.CursorPos - 1 }
  else some tb

/-- Lines 70-84 of `Update`: the body of the loop over the typed runes. -/
def inputRune (r : Int) (tb : TextBox) : Option TextBox :=
  if r = 10 ∨ r = 13 then some tb
  else if r = 8 then removeBefore tb
  else if (tb.Text.length : Int) < tb.MaxLength ∧ r ≥ 32 then
    (sliceTo tb.Text tb.CursorPos).bind fun a =>
      (sliceFrom tb.Text tb.CursorPos).bind fun b =>
        some { tb with Text := a ++ runeString r ++ b, CursorPos := tb.CursorPos + 1 }
  else some tb

/-- Lines 69-85 of `Update`: the loop over the typed runes. -/
def inputRunes : List Int → TextBox → Option TextBox
  | [], tb => some tb
  | r :: rs, tb => (inputRune r tb).bind (inputRunes rs)

/-- Lines 88-99 of `Update`: arrow keys, Home and End, in this order. -/
def navKeys (inp : Input) (tb : TextBox) : TextBox :=
  let tb := if inp.keyArrowLeft && decide (tb.CursorPos > 0) then
    { tb with CursorPos := tb.CursorPos - 1 } else tb
  let tb := if inp.keyArrowRight && decide (tb.CursorPos < (tb.Text.length : Int)) then
    { tb with CursorPos := tb.CursorPos + 1 } else tb
  let tb := if inp.keyHome then { tb with CursorPos := 0 } else tb
  if inp.keyEnd then { tb with CursorPos := (tb.Text.length : Int) } else tb

/-- Lines 102-104 of `Update`: the Delete key. -/
def deleteKey (inp : Input) (tb : TextBox) : Option TextBox :=
  if inp.keyDelete && decide (tb.CursorPos < (tb.Text.length : Int)) then
    (sliceTo tb.Text tb.CursorPos).bind fun a =>
      (sliceFrom tb.Text (tb.CursorPos + 1)).bind fun b =>
        some { tb with Text := a ++ b }
  else some tb

/-- Lines 107-110 of `Update`: the Backspace key. -/
def backspaceKey (inp : Input) (tb : TextBox) : Option TextBox :=
  if inp.keyBackspace then removeBefore tb else some tb

/-- The method `Update`, for one tick with input `inp`. -/
def Update (inp : Input) (tb : TextBox) : Option TextBox :=
  let tb := clickFocus inp tb
  if tb.Focused = false then some tb
  else
    (inputRunes inp.chars (blink inp tb)).bind fun tb =>
      (deleteKey inp (navKeys inp tb)).bind fun tb =>
        backspaceKey inp tb

/-- The method `SetText`. -/
def SetText (text : GoString) (tb : TextBox) : TextBox :=
  { tb with Text := text, CursorPos := (text.length : Int) }

/-- The method `Clear`. -/
def Clear (tb : TextBox) : TextBox :=
  { tb with Text := [], CursorPos := 0 }

/-- The method `SetFocus`, called at clock value `now`. -/
def SetFocus (focused : Bool) (now : Int) (tb : TextBox) : TextBox :=
  if focused then { tb with Focused := focused, ShowCursor := true, lastCursorToggle := now }
  else { tb with Focused := focused }

/-- The two fields an edit acts on: `Text` and `CursorPos`. -/
def edit (tb : TextBox) : GoString × Int := (tb.Text, tb.CursorPos)

/-- The cursor is a valid index into the text: `0 ≤ CursorPos ≤ len(Text)`. -/
def CursorOK (tb : TextBox) : Prop :=
  0 ≤ tb.CursorPos ∧ tb.CursorPos ≤ (tb.Text.length : Int)

instance (tb : TextBox) : Decidable (CursorOK tb) := by
  unfold CursorOK; infer_instance

/-- A call a client of the widget can make on a `TextBox`: one tick of `Update`, or one
of the mutating methods `SetText`, `Clear`, `SetFocus`. -/
inductive Op where
  | update (inp : Input)
  | setText (text : GoString)
  | clear
  | setFocus (focused : Bool) (now : Int)
  deriving DecidableEq, Repr

/-- The effect of one call. -/
def Op.apply : Op → TextBox → Option TextBox
  | .update inp, tb => Update inp tb
  | .setText text, tb => some (SetText text tb)
  | .clear, tb => some (Clear tb)
  | .setFocus focused now, tb => some (SetFocus focused now tb)

/-- The effect of a sequence of calls. -/
def applyOps : List Op → TextBox → Option TextBox
  | [], tb => some tb
  | op :: rest, tb => (op.apply tb).bind (applyOps rest)

/-- A call that cannot grow the text past `maxLength` bytes: a tick whose typed runes are
all below 128 (their `string(r)` is one byte long), a `SetText` whose argument is at most
`maxLength` bytes long, or any other call. -/
def Op.fits (maxLength : Int) : Op → Prop
  | .update inp => ∀ r ∈ inp.chars, r < 128
  | .setText text => (text.length : Int) ≤ maxLength
  | .clear => True
  | .setFocus _ _ => True

instance (maxLength : Int) (op : Op) : Decidable (op.fits maxLength) := by
  cases op <;> unfold Op.fits <;> infer_instance

/-- The cursor is valid, the text is at most `M` bytes long, and `MaxLength` is `M`. -/
def Bounded (M : Int) (tb : TextBox) : Prop :=
  CursorOK tb ∧ (tb.Text.length : Int) ≤ M ∧ tb.MaxLength = M

instance (M : Int) (tb : TextBox) : Decidable (Bounded M tb) := by
  unfold Bounded; infer_instance

/-- Feeding `Update` one input per tick. -/
def run : List Input → TextBox → Option TextBox
  | [], tb => some tb
  | inp :: rest, tb => (Update inp tb).bind (run rest)

/-! ### The layout decisions of `Draw` -/

/-- Lines 157-173 of `Draw`: the loop that advances `startPos`.  The first argument bounds
the number of iterations; `none` means the bound was too small. -/
def findStart (measure : GoString → Int) (displayText : GoString)
    (CursorPos maxVisibleWidth : Int) : Nat → Int → Option Int
  | 0, _ => none
  | fuel + 1, startPos =>
    if startPos < (displayText.length : Int) then
      (sliceFrom displayText startPos).bind fun testText =>
        let testWidth := measure testText
        (if CursorPos ≥ startPos then
            let relativeCursor := CursorPos - startPos
            if relativeCursor ≤ (testText.length : Int) then
              (sliceTo testText relativeCursor).bind fun t => some (measure t)
            else some 0
          else some 0).bind fun testCursorOffset =>
          if testWidth ≤ maxVisibleWidth ∧ testCursorOffset ≤ maxVisibleWidth then
            some startPos
          else findStart measure displayText CursorPos maxVisibleWidth fuel (startPos + 1)
    else some startPos

/-- Lines 178-183 of `Draw`: the loop that drops characters from the end.  The first
argument bounds the number of iterations; `none` means the bound was too small. -/
def truncateEnd (measure : GoString → Int) (maxVisibleWidth : Int) :
    Nat → GoString → Option GoString
  | 0, _ => none
  | fuel + 1, visibleText =>
    if visibleText.length > 0 then
      if measure visibleText ≤ maxVisibleWidth then some visibleText
      else
        (sliceTo visibleText ((visibleText.length : Int) - 1)).bind
          (truncateEnd measure maxVisibleWidth fuel)
    else some visibleText

/-- Lines 151-185 of `Draw`: the visible portion of `displayText`. -/
def visibleText (measure : GoString → Int) (displayText : GoString)
    (CursorPos maxVisibleWidth : Int) : Option GoString :=
  if measure displayText > maxVisibleWidth then
    (findStart measure displayText CursorPos maxVisibleWidth (displayText.length + 1) 0).bind
      fun startPos =>
        (sliceFrom displayText startPos).bind fun visibleText =>
          if measure visibleText > maxVisibleWidth then
            truncateEnd measure maxVisibleWidth (visibleText.length + 1) visibleText
          else some visibleText
  else some displayText

/-- Lines 190-209 of `Draw`: the x coordinate of the cursor bar, `none` when no cursor is
drawn. -/
def cursorX (measure : GoString → Int) (tb : TextBox) (textX : Int)
    (visibleText : GoString) : Option (Option Int) :=
  if tb.Focused && tb.ShowCursor && decide (tb.CursorPos ≥ 0) then
    if decide (tb.CursorPos > 0) && decide (tb.CursorPos ≤ (tb.Text.length : Int)) then
      (sliceTo tb.Text tb.CursorPos).bind fun textBeforeCursor =>
        (if visibleText.length < tb.Text.length then
            let startPos := (tb.Text.length : Int) - (visibleText.length : Int)
            if tb.CursorPos ≥ startPos then
              let relativeCursor := tb.CursorPos - startPos
              if relativeCursor ≤ (visibleText.length : Int) then
                sliceTo visibleText relativeCursor
              else some visibleText
            else some []
          else some textBeforeCursor).bind fun textBeforeCursor =>
          some (some (textX + measure textBeforeCursor))
    else some (some textX)
  else some none

/-- What `Draw` decides about the text line: the string handed to `text.Draw`, its x
coordinate, and the x coordinate of the cursor bar when one is drawn. -/
structure Drawn where
  visibleText : GoString
  textX : Int
  cursorX : Option Int
  deriving DecidableEq, Repr

/-- The method `Draw`, reduced to its layout decisions (lines 137-214). -/
def Draw (measure : GoString → Int) (tb : TextBox) : Option Drawn :=
  let displayText :=
    if tb.Text = [] ∧ tb.Focused = false then tb.PlaceholderText else tb.Text
  let padding : Int := 8
  let textX := tb.X + padding
  let maxVisibleWidth := tb.Width - padding * 2 - 10
  (visibleText measure displayText tb.CursorPos maxVisibleWidth).bind fun v =>
    (cursorX measure tb textX v).bind fun c =>
      some { visibleText := v, textX := textX, cursorX := c }

end TextBox

/-! ### Sample boxes -/

/-- A focused input box holding `abc` with the cursor after `ab`. -/
def abcBox : TextBox :=
  { NewTextBox 20 20 500 35 [] 0 with Focused := true, Text := [97, 98, 99], CursorPos := 2 }

/-- A focused input box holding one hundred letters `a`, the cursor at the end. -/
def fullBox : TextBox :=
  { NewTextBox 20 20 500 35 [] 0 with
    Focused := true, Text := List.replicate 100 97, CursorPos := 100 }

/-- A focused box 74 pixels wide (48 pixels of text, room for seven glyphs of
`basicfont.Face7x13`) holding twenty letters `a`, the cursor moved to the very start. -/
def longBox : TextBox :=
  { NewTextBox 20 20 74 35 [] 0 with
    Focused := true, Text := List.replicate 20 97, CursorPos := 0 }

/-- A focused box 20 pixels wide, narrower than its own padding, holding `a`. -/
def narrowBox : TextBox :=
  { NewTextBox 20 20 20 35 [] 0 with Focused := true, Text := [97], CursorPos := 1 }

/-- Modelled from the spec: the text-measurement collaborator for the fixed-width face
`basicfont.Face7x13` (a library value, not code of this repository): the right edge of the
bounding box of a string of `n` glyphs, each 6 pixels wide and advancing the pen by 7; one
glyph per byte, as for single-line ASCII text. -/
def measure7x13 (s : GoString) : Int :=
  if s.length = 0 then 0 else 7 * (s.length : Int) - 1

/-! ## Button (`button.go`) -/

/-- An RGBA colour. -/
abbrev Color := Nat × Nat × Nat × Nat

/-- The `Button` struct; `hasOnClick` records `OnClick != nil`. -/
structure Button where
  X : Int
  Y : Int
  Width : Int
  Height : Int
  Text : GoString
  hasOnClick : Bool
  Hovered : Bool
  Pressed : Bool
  Enabled : Bool
  BackgroundColor : Color
  HoverColor : Color
  TextColor : Color
  deriving DecidableEq, Repr

/-- The constructor `NewButton`. -/
def NewButton (x y width height : Int) (text : GoString) (hasOnClick : Bool) : Button :=
  { X := x, Y := y, Width := width, Height := height, Text := text,
    hasOnClick := hasOnClick, Hovered := false, Pressed := false, Enabled := true,
    BackgroundColor := (0, 123, 255, 255), HoverColor := (0, 86, 179, 255),
    TextColor := (255, 255, 255, 255) }

namespace Button

/-- The method `Contains`. -/
def Contains (b : Button) (x y : Int) : Bool :=
  decide (x ≥ b.X) && decide (x ≤ b.X + b.Width) &&
    decide (y ≥ b.Y) && decide (y ≤ b.Y + b.Height)

/-- The method `Update`, for one tick with input `inp`: the new button and the number of
calls of `OnClick` made during the tick. -/
def Update (inp : Input) (b : Button) : Button × Nat :=
  if b.Enabled = false then (b, 0)
  else
    let x := inp.cursorX
    let y := inp.cursorY
    let hovered := decide (x ≥ b.X) && decide (x ≤ b.X + b.Width) &&
      decide (y ≥ b.Y) && decide (y ≤ b.Y + b.Height)
    let b := { b with Hovered := hovered }
    if b.Hovered && inp.mouseDown then
      if b.Pressed = false then ({ b with Pressed := true }, 0) else (b, 0)
    else if b.Pressed then
      ({ b with Pressed := false }, if b.Hovered && b.hasOnClick then 1 else 0)
    else (b, 0)

/-- The button after the ticks `inps`, fed to `Update` one by one. -/
def after : List Input → Button → Button
  | [], b => b
  | inp :: rest, b => after rest (Update inp b).1

/-- The total number of `OnClick` calls made over the ticks `inps`. -/
def clicks : List Input → Button → Nat
  | [], _ => 0
  | inp :: rest, b => (Update inp b).2 + clicks rest (Update inp b).1

end Button

/-- The enabled button with bounds `(0, 0, 50, 20)` and a callback, as `NewButton`
builds it. -/
def sampleButton : Button := NewButton 0 0 50 20 [] true

/-- The same button in the middle of a press: `Pressed` and `Hovered` are set. -/
def heldButton : Button := { sampleButton with Hovered := true, Pressed := true }

/-- The number of places in a sequence of button samples where a sample with the button
down is directly followed by one with the button up. -/
def downUpTransitions : List Bool → Nat
  | d₁ :: d₂ :: rest =>
    (if d₁ && !d₂ then 1 else 0) + downUpTransitions (d₂ :: rest)
  | _ => 0

/-! ### Further methods of `TextBox` and `Button` -/

/-- The method `TextBox.GetText`. -/
def TextBox.GetText (tb : TextBox) : GoString := tb.Text

/-- The method `TextBox.IsEnterPressed`. -/
def TextBox.IsEnterPressed (inp : Input) (tb : TextBox) : Bool :=
  tb.Focused && inp.keyEnter

/-- The method `TextBox.IsEscapePressed`. -/
def TextBox.IsEscapePressed (inp : Input) (tb : TextBox) : Bool :=
  tb.Focused && inp.keyEscape

/-- The method `Button.SetPosition`. -/
def Button.SetPosition (x y : Int) (b : Button) : Button :=
  { b with X := x, Y := y }

/-- The method `Button.SetColors`. -/
def Button.SetColors (bg hover text : Color) (b : Button) : Button :=
  { b with BackgroundColor := bg, HoverColor := hover, TextColor := text }

/-- Lines 64-69 of `Button.Draw`: the background colour handed to `DrawRect`. -/
def Button.drawBackground (b : Button) : Color :=
  if b.Enabled = false then (108, 117, 125, 255)
  else if b.Hovered || b.Pressed then b.HoverColor
  else b.BackgroundColor

/-- Lines 82-85 of `Button.Draw`: the colour of the label. -/
def Button.drawTextColor (b : Button) : Color :=
  if b.Enabled = false then (200, 200, 200, 255) else b.TextColor

/-- A tick on which exactly the Enter key was just pressed. -/
def Input.enter (now : Int) : Input :=
  { Input.idle with keyEnter := true, now := now }

/-- A tick on which exactly the Escape key was just pressed. -/
def Input.escape (now : Int) : Input :=
  { Input.idle with keyEscape := true, now := now }

/-- A tick on which the primary button was just pressed at `(x, y)`. -/
def Input.click (x y : Int) (now : Int) : Input :=
  { Input.idle with
    cursorX := x, cursorY := y, mouseDown := true, mouseJustPressed := true, now := now }

/-! ## The record model (`models/todo.go`) -/

namespace models

/-- The `Todo` struct; `CreatedAt` is a clock value in nanoseconds. -/
structure Todo where
  ID : GoString
  Text : GoString
  Completed : Bool
  CreatedAt : Int
  deriving DecidableEq, Repr

/-- The constructor `NewTodo`, with the fresh identifier `uuid.New().String()` and the clock
value `time.Now()` passed in. -/
def NewTodo (text : GoString) (id : GoString) (now : Int) : Todo :=
  { ID := id, Text := text, Completed := false, CreatedAt := now }

/-- The method `Todo.Toggle`. -/
def Todo.Toggle (t : Todo) : Todo := { t with Completed := !t.Completed }

/-- The method `Todo.SetText`. -/
def Todo.SetText (text : GoString) (t : Todo) : Todo := { t with Text := text }

/-- The `TodoList` struct. -/
structure TodoList where
  Todos : List Todo
  deriving DecidableEq, Repr

/-- The constants `FilterAll`, `FilterActive`, `FilterCompleted` of the integer type
`FilterType`. -/
def FilterAll : Int := 0

def FilterActive : Int := 1

def FilterCompleted : Int := 2

namespace TodoList

/-- The method `AddTodo`, with the identifier and clock value of `NewTodo` passed in. -/
def AddTodo (text : GoString) (id : GoString) (now : Int) (tl : TodoList) : TodoList :=
  { tl with Todos := tl.Todos ++ [NewTodo text id now] }

/-- The loop of `DeleteTodo` and `FindTodo` (`for i, todo := range tl.Todos`): the first
index, counted from `i`, whose todo has the identifier `id`. -/
def firstIndex (id : GoString) : List Todo → Nat → Option Nat
  | [], _ => none
  | todo :: rest, i => if todo.ID = id then some i else firstIndex id rest (i + 1)

/-- The method `DeleteTodo`: the list afterwards and the returned boolean. -/
def DeleteTodo (id : GoString) (tl : TodoList) : TodoList × Bool :=
  match firstIndex id tl.Todos 0 with
  | some i => ({ tl with Todos := tl.Todos.take i ++ tl.Todos.drop (i + 1) }, true)
  | none => (tl, false)

/-- The method `FindTodo`: the index of the todo the returned pointer refers to, `none` for
the nil pointer. -/
def FindTodo (id : GoString) (tl : TodoList) : Option Nat :=
  firstIndex id tl.Todos 0

/-- The method `GetFilteredTodos`: the list afterwards (the method assigns to no field) and
the returned slice; the two loops append to an initially nil slice. -/
def GetFilteredTodos (filter : Int) (tl : TodoList) : TodoList × List Todo :=
  if filter = FilterActive then
    (tl, tl.Todos.foldl
      (fun active todo => if !todo.Completed then active ++ [todo] else active) [])
  else if filter = FilterCompleted then
    (tl, tl.Todos.foldl
      (fun completed todo => if todo.Completed then completed ++ [todo] else completed) [])
  else (tl, tl.Todos)

end TodoList

end models

/-! ## TodoItem (`todoitem.go`) -/

/-- The zero value of `time.Time` (1 January of year 1, UTC), in nanoseconds relative to the
Unix epoch. -/
def zeroTime : Int := -62135596800000000000

/-- The method `time.Time.Sub`: the difference as a `time.Duration`, saturated to the range
of a 64-bit integer. -/
def timeSub (t u : Int) : Int :=
  if t - u > 9223372036854775807 then 9223372036854775807
  else if t - u < -9223372036854775808 then -9223372036854775808
  else t - u

/-- The `TodoItem` struct.  The field `Todo` stands for the record the pointer refers to;
the two buttons carry the callbacks installed by `NewTodoItem` (the checkbox toggles the
record, the delete button calls what the parent installs). -/
structure TodoItem where
  Todo : models.Todo
  X : Int
  Y : Int
  Width : Int
  Height : Int
  Editing : Bool
  EditText : GoString
  EditTextBox : TextBox
  Checkbox : Button
  DeleteBtn : Button
  lastClickTime : Int
  Hovered : Bool
  deriving DecidableEq, Repr

/-- The constructor `NewTodoItem`, called at clock value `now`. -/
def NewTodoItem (todo : models.Todo) (x y width height : Int) (now : Int) : TodoItem :=
  { Todo := todo, X := x, Y := y, Width := width, Height := height,
    Editing := false, EditText := [], lastClickTime := zeroTime, Hovered := false,
    Checkbox := (NewButton (x + 8) (y + (height - 20).tdiv 2) 20 20 [] true).SetColors
      (255, 255, 255, 255) (240, 240, 240, 255) (0, 0, 0, 255),
    DeleteBtn := (NewButton (x + width - 24 - 8) (y + (height - 24).tdiv 2) 24 24
      [0xC3, 0x97] true).SetColors (220, 53, 69, 255) (200, 35, 51, 255) (255, 255, 255, 255),
    EditTextBox := NewTextBox (x + 40) (y + 4) (width - 80) (height - 8)
      [69, 110, 116, 101, 114, 32, 116, 111, 100, 111, 32, 116, 101, 120, 116] now }

namespace TodoItem

/-- What one tick of `TodoItem.Update` leaves behind: the item, and how often the
callbacks of the checkbox and of the delete button were called. -/
structure Result where
  item : TodoItem
  toggleCalls : Nat
  deleteCalls : Nat
  deriving DecidableEq, Repr

/-- The method `Contains`. -/
def Contains (ti : TodoItem) (x y : Int) : Bool :=
  decide (x ≥ ti.X) && decide (x ≤ ti.X + ti.Width) &&
    decide (y ≥ ti.Y) && decide (y ≤ ti.Y + ti.Height)

/-- The method `updateComponentPositions`. -/
def updateComponentPositions (ti : TodoItem) : TodoItem :=
  { ti with
    Checkbox := ti.Checkbox.SetPosition (ti.X + 8) (ti.Y + (ti.Height - 20).tdiv 2),
    DeleteBtn :=
      ti.DeleteBtn.SetPosition (ti.X + ti.Width - 24 - 8) (ti.Y + (ti.Height - 24).tdiv 2),
    EditTextBox := { ti.EditTextBox with
      X := ti.X + 40, Y := ti.Y + 4, Width := ti.Width - 80, Height := ti.Height - 8 } }

/-- The method `startEditing`, called at clock value `now`. -/
def startEditing (now : Int) (ti : TodoItem) : TodoItem :=
  { ti with
    Editing := true, EditText := ti.Todo.Text,
    EditTextBox := (ti.EditTextBox.SetText ti.Todo.Text).SetFocus true now }

/-- Lines 84-86 of `Update`: the hover flag of the row. -/
def hover (inp : Input) (ti : TodoItem) : TodoItem :=
  { ti with Hovered := decide (inp.cursorX ≥ ti.X) && decide (inp.cursorX ≤ ti.X + ti.Width) &&
      decide (inp.cursorY ≥ ti.Y) && decide (inp.cursorY ≤ ti.Y + ti.Height) }

/-- Lines 92-98 of `Update`: the Enter key saves a draft of non-zero length. -/
def commitOnEnter (inp : Input) (ti : TodoItem) : TodoItem :=
  if ti.EditTextBox.IsEnterPressed inp then
    if ti.EditTextBox.GetText.length > 0 then
      { ti with Todo := ti.Todo.SetText ti.EditTextBox.GetText, Editing := false }
    else ti
  else ti

/-- Lines 101-103 of `Update`: the Escape key leaves the edit mode. -/
def cancelOnEscape (inp : Input) (ti : TodoItem) : TodoItem :=
  if ti.EditTextBox.IsEscapePressed inp then { ti with Editing := false } else ti

/-- Lines 89-103 of `Update`: the branch taken while editing. -/
def editingTick (inp : Input) (ti : TodoItem) : Option Result :=
  (ti.EditTextBox.Update inp).bind fun box =>
    some { item := cancelOnEscape inp (commitOnEnter inp { ti with EditTextBox := box }),
           toggleCalls := 0, deleteCalls := 0 }

/-- Lines 110-117 of `Update`: double-click detection. -/
def doubleClick (inp : Input) (ti : TodoItem) : TodoItem :=
  if inp.mouseJustPressed && ti.Hovered then
    let currentTime := inp.now
    let ti := if timeSub currentTime ti.lastClickTime < 300000000 then
      startEditing inp.now ti else ti
    { ti with lastClickTime := currentTime }
  else ti

/-- Lines 106-117 of `Update`: the branch taken while not editing.  A call of the
checkbox callback toggles the record. -/
def viewingTick (inp : Input) (ti : TodoItem) : Result :=
  let c := ti.Checkbox.Update inp
  let d := ti.DeleteBtn.Update inp
  { item := doubleClick inp
      { ti with Checkbox := c.1, Todo := models.Todo.Toggle^[c.2] ti.Todo, DeleteBtn := d.1 },
    toggleCalls := c.2, deleteCalls := d.2 }

/-- The method `Update`, for one tick with input `inp`; `none` is a run-time panic. -/
def Update (inp : Input) (ti : TodoItem) : Option Result :=
  let ti := hover inp (updateComponentPositions ti)
  if ti.Editing then editingTick inp ti else some (viewingTick inp ti)

end TodoItem

/-! ### Sample records and rows -/

/-- The list of the test `TestTodoListDeleteTodo`: `Test 1` and `Test 2`. -/
def testList : models.TodoList :=
  { Todos := [models.NewTodo [84, 101, 115, 116, 32, 49] [105, 100, 49] 0,
      models.NewTodo [84, 101, 115, 116, 32, 50] [105, 100, 50] 0] }

/-- A list in which two todos carry the same identifier, as a data file can hold. -/
def twinList : models.TodoList :=
  { Todos := [models.NewTodo [84, 101, 115, 116, 32, 49] [105, 100, 49] 0,
      models.NewTodo [84, 101, 115, 116, 32, 50] [105, 100, 49] 0] }

/-- The list of the test `TestGetFilteredTodos`: an active and a completed todo. -/
def mixedList : models.TodoList :=
  { Todos := [models.NewTodo [65] [105, 100, 49] 0,
      (models.NewTodo [67] [105, 100, 50] 0).Toggle] }

/-- A disabled button whose `Hovered` and `Pressed` flags are set. -/
def disabledButton : Button := { heldButton with Enabled := false }

/-- The record `buy milk`. -/
def milkTodo : models.Todo :=
  models.NewTodo [98, 117, 121, 32, 109, 105, 108, 107] [49] 0

/-- The row of `buy milk` at `(20, 70)`, 760 by 50 pixels, as the game builds it. -/
def milkRow : TodoItem := NewTodoItem milkTodo 20 70 760 50 0

/-- The row of `buy milk` in edit mode (entered at clock value 1000) with the draft
`draft` in its focused edit box, the cursor at the end. -/
def editingRow (draft : GoString) : TodoItem :=
  { TodoItem.startEditing 1000 milkRow with
    EditTextBox := ((TodoItem.startEditing 1000 milkRow).EditTextBox.SetText draft) }

/-! ## The text measurement of the rendering library -/

/-- The number of bytes that the first rune of a string takes when the string is decoded
the way `for _, r := range s` decodes it: UTF-8, where a byte that starts no well-formed
sequence (or a sequence cut short) is one byte wide and decodes to U+FFFD. -/
def firstRuneWidth : GoString → Nat
  | [] => 0
  | s0 :: rest =>
    if s0.val < 0x80 then 1
    else if s0.val < 0xC2 ∨ 0xF4 < s0.val then 1
    else
      let sz : Nat := if s0.val < 0xE0 then 2 else if s0.val < 0xF0 then 3 else 4
      let lo : Nat := if s0.val = 0xE0 then 0xA0 else if s0.val = 0xF0 then 0x90 else 0x80
      let hi : Nat := if s0.val = 0xED then 0x9F else if s0.val = 0xF4 then 0x8F else 0xBF
      if rest.length + 1 < sz then 1
      else
        match rest with
        | [] => 1
        | s1 :: rest1 =>
          if s1.val < lo ∨ hi < s1.val then 1
          else if sz ≤ 2 then 2
          else
            match rest1 with
            | [] => 1
            | s2 :: rest2 =>
              if s2.val < 0x80 ∨ 0xBF < s2.val then 1
              else if sz ≤ 3 then 3
              else
                match rest2 with
                | [] => 1
                | s3 :: _ => if s3.val < 0x80 ∨ 0xBF < s3.val then 1 else 4

/-- The loop of `text.BoundString` for the face `basicfont.Face7x13`, whose glyphs are all
6 pixels wide and advance the pen by 7: `skip` counts the bytes still belonging to the rune
just handled, `fx` is the pen position and `maxX` the right edge of the bounds so far.  A
newline moves the pen back to 0; every other rune (U+FFFD included) is one glyph. -/
def boundScan : GoString → Nat → Int → Int → Int
  | [], _, _, maxX => maxX
  | _ :: rest, skip + 1, fx, maxX => boundScan rest skip fx maxX
  | b :: rest, 0, fx, maxX =>
    if b.val = 10 then boundScan rest 0 0 maxX
    else boundScan rest (firstRuneWidth (b :: rest) - 1) (fx + 7) (max maxX (fx + 6))

/-- The measurement `text.BoundString(basicfont.Face7x13, s).Max.X` that `Draw` calls: a
function of the rendering library, written down from its documented behaviour. -/
def boundStringMaxX (s : GoString) : Int := boundScan s 0 0 0

/-- Every byte of the string is below 128, so every byte is a character of its own. -/
def singleByte (s : GoString) : Prop := ∀ b ∈ s, b.val < 128

instance (s : GoString) : Decidable (singleByte s) := by
  unfold singleByte; infer_instance

/-- A focused box with room for one glyph (`Width - 26 = 6`) holding the euro sign
(`e2 82 ac`), the cursor after its second byte: typed as one rune, then End and Left. -/
def euroBox : TextBox :=
  { NewTextBox 20 20 32 35 [] 0 with
    Focused := true, Text := [0xE2, 0x82, 0xAC], CursorPos := 2 }

end Todo

/-! # Theorems -/

namespace Todo
open TextBox models

theorem slice_eq {s : GoString} {lo hi : Int} (h0 : 0 ≤ lo) (h1 : lo ≤ hi)
    (h2 : hi ≤ (s.length : Int)) :
    slice s lo hi = some ((s.drop lo.toNat).take (hi.toNat - lo.toNat)) := by
  unfold slice
  rw [if_pos ⟨h0, h1, h2⟩]

theorem sliceTo_eq {s : GoString} {hi : Int} (h0 : 0 ≤ hi) (h1 : hi ≤ (s.length : Int)) :
    sliceTo s hi = some (s.take hi.toNat) := by
  unfold sliceTo
  rw [slice_eq (le_refl 0) h0 h1]
  simp

theorem sliceFrom_eq {s : GoString} {lo : Int} (h0 : 0 ≤ lo) (h1 : lo ≤ (s.length : Int)) :
    sliceFrom s lo = some (s.drop lo.toNat) := by
  unfold sliceFrom
  rw [slice_eq h0 h1 (le_refl _)]
  congr 1
  apply List.take_of_length_le
  simp

theorem removeBefore_eq {tb : TextBox} (h : CursorOK tb) (hpos : tb.CursorPos > 0) :
    removeBefore tb = some { tb with
      Text := tb.Text.take (tb.CursorPos - 1).toNat ++ tb.Text.drop tb.CursorPos.toNat,
      CursorPos := tb.CursorPos - 1 } := by
  obtain ⟨h0, h1⟩ := h
  unfold removeBefore
  rw [if_pos hpos, sliceTo_eq (by omega) (by omega), sliceFrom_eq h0 h1]
  rfl

theorem removeBefore_zero {tb : TextBox} (hpos : ¬ tb.CursorPos > 0) :
    removeBefore tb = some tb := by
  unfold removeBefore
  rw [if_neg hpos]

theorem length_runeString_pos (r : Int) : 1 ≤ (runeString r).length := by
  unfold runeString
  split
  · simp
  · simp only
    split
    · simp
    · split
      · simp
      · split <;> simp

theorem removeBefore_ok {tb : TextBox} (h : CursorOK tb) :
    ∃ tb', removeBefore tb = some tb' ∧ CursorOK tb' := by
  by_cases hpos : tb.CursorPos > 0
  · refine ⟨_, removeBefore_eq h hpos, ?_⟩
    obtain ⟨h0, h1⟩ := h
    simp only [CursorOK, List.length_append, List.length_take, List.length_drop]
    omega
  · exact ⟨tb, removeBefore_zero hpos, h⟩


theorem inputRune_insert_eq {tb : TextBox} (h : CursorOK tb) {r : Int}
    (hr : ¬ (r = 10 ∨ r = 13)) (hb : r ≠ 8)
    (hg : (tb.Text.length : Int) < tb.MaxLength ∧ r ≥ 32) :
    inputRune r tb = some { tb with
      Text := tb.Text.take tb.CursorPos.toNat ++ runeString r ++ tb.Text.drop tb.CursorPos.toNat,
      CursorPos := tb.CursorPos + 1 } := by
  obtain ⟨h0, h1⟩ := h
  unfold inputRune
  rw [if_neg hr, if_neg hb, if_pos hg, sliceTo_eq h0 h1, sliceFrom_eq h0 h1]
  rfl

theorem inputRune_reject_eq {tb : TextBox} {r : Int}
    (hr : ¬ (r = 10 ∨ r = 13)) (hb : r ≠ 8)
    (hg : ¬ ((tb.Text.length : Int) < tb.MaxLength ∧ r ≥ 32)) :
    inputRune r tb = some tb := by
  unfold inputRune
  rw [if_neg hr, if_neg hb, if_neg hg]

theorem inputRune_ok {tb : TextBox} (h : CursorOK tb) (r : Int) :
    ∃ tb', inputRune r tb = some tb' ∧ CursorOK tb' := by
  by_cases hr : r = 10 ∨ r = 13
  · exact ⟨tb, by unfold inputRune; rw [if_pos hr], h⟩
  · by_cases hb : r = 8
    · obtain ⟨tb', e, ok⟩ := removeBefore_ok h
      exact ⟨tb', by unfold inputRune; rw [if_neg hr, if_pos hb]; exact e, ok⟩
    · by_cases hg : (tb.Text.length : Int) < tb.MaxLength ∧ r ≥ 32
      · refine ⟨_, inputRune_insert_eq h hr hb hg, ?_⟩
        obtain ⟨h0, h1⟩ := h
        have hl := length_runeString_pos r
        simp only [CursorOK, List.length_append, List.length_take, List.length_drop]
        omega
      · exact ⟨tb, inputRune_reject_eq hr hb hg, h⟩

theorem inputRunes_ok (rs : List Int) : ∀ {tb : TextBox}, CursorOK tb →
    ∃ tb', inputRunes rs tb = some tb' ∧ CursorOK tb' := by
  induction rs with
  | nil => intro tb h; exact ⟨tb, rfl, h⟩
  | cons r rs ih =>
    intro tb h
    obtain ⟨tb₁, e₁, ok₁⟩ := inputRune_ok h r
    obtain ⟨tb₂, e₂, ok₂⟩ := ih ok₁
    exact ⟨tb₂, by simp [inputRunes, e₁, e₂], ok₂⟩

theorem navKeys_Text (inp : Input) (tb : TextBox) : (navKeys inp tb).Text = tb.Text := by
  unfold navKeys
  simp only
  repeat' split
  all_goals rfl

theorem navKeys_ok (inp : Input) {tb : TextBox} (h : CursorOK tb) :
    CursorOK (navKeys inp tb) := by
  obtain ⟨h0, h1⟩ := h
  unfold navKeys CursorOK
  simp only
  repeat' split
  all_goals simp_all
  all_goals omega

theorem deleteKey_eq {inp : Input} {tb : TextBox} (h : CursorOK tb)
    (hd : inp.keyDelete = true) (hlt : tb.CursorPos < (tb.Text.length : Int)) :
    deleteKey inp tb = some { tb with
      Text := tb.Text.take tb.CursorPos.toNat ++ tb.Text.drop (tb.CursorPos + 1).toNat } := by
  obtain ⟨h0, h1⟩ := h
  unfold deleteKey
  rw [if_pos (by simp [hd, hlt]), sliceTo_eq h0 h1, sliceFrom_eq (by omega) (by omega)]
  rfl

theorem deleteKey_noop {inp : Input} {tb : TextBox}
    (hd : ¬ (inp.keyDelete = true ∧ tb.CursorPos < (tb.Text.length : Int))) :
    deleteKey inp tb = some tb := by
  unfold deleteKey
  rw [if_neg (by simpa using hd)]

theorem deleteKey_ok (inp : Input) {tb : TextBox} (h : CursorOK tb) :
    ∃ tb', deleteKey inp tb = some tb' ∧ CursorOK tb' := by
  by_cases hd : inp.keyDelete = true ∧ tb.CursorPos < (tb.Text.length : Int)
  · refine ⟨_, deleteKey_eq h hd.1 hd.2, ?_⟩
    obtain ⟨h0, h1⟩ := h
    simp only [CursorOK, List.length_append, List.length_take, List.length_drop]
    omega
  · exact ⟨tb, deleteKey_noop hd, h⟩

theorem backspaceKey_ok (inp : Input) {tb : TextBox} (h : CursorOK tb) :
    ∃ tb', backspaceKey inp tb = some tb' ∧ CursorOK tb' := by
  unfold backspaceKey
  split
  · exact removeBefore_ok h
  · exact ⟨tb, rfl, h⟩

theorem clickFocus_ok (inp : Input) {tb : TextBox} (h : CursorOK tb) :
    CursorOK (clickFocus inp tb) := by
  unfold clickFocus
  split
  · exact h
  · exact h

theorem blink_ok (inp : Input) {tb : TextBox} (h : CursorOK tb) :
    CursorOK (blink inp tb) := by
  unfold blink
  split
  · exact h
  · exact h

theorem Update_ok (inp : Input) {tb : TextBox} (h : CursorOK tb) :
    ∃ tb', Update inp tb = some tb' ∧ CursorOK tb' := by
  unfold Update
  simp only
  split
  · exact ⟨_, rfl, clickFocus_ok inp h⟩
  · obtain ⟨tb₁, e₁, ok₁⟩ := inputRunes_ok inp.chars (blink_ok inp (clickFocus_ok inp h))
    obtain ⟨tb₂, e₂, ok₂⟩ := deleteKey_ok inp (navKeys_ok inp ok₁)
    obtain ⟨tb₃, e₃, ok₃⟩ := backspaceKey_ok inp ok₂
    exact ⟨tb₃, by simp [e₁, e₂, e₃], ok₃⟩

theorem run_ok (inps : List Input) : ∀ {tb : TextBox}, CursorOK tb →
    ∃ tb', run inps tb = some tb' ∧ CursorOK tb' := by
  induction inps with
  | nil => intro tb h; exact ⟨tb, rfl, h⟩
  | cons inp rest ih =>
    intro tb h
    obtain ⟨tb₁, e₁, ok₁⟩ := Update_ok inp h
    obtain ⟨tb₂, e₂, ok₂⟩ := ih ok₁
    exact ⟨tb₂, by simp [run, e₁, e₂], ok₂⟩

/-- C1 (cursor bounds).  The box built by `NewTextBox` has `0 ≤ CursorPos ≤ len(Text)`;
from any box with `0 ≤ CursorPos ≤ len(Text)`, each edit step of `Update` (one typed rune,
the navigation keys, the Delete key, the Backspace key) returns a box with the same
property, and so does every prefix of any sequence of ticks fed to `Update`, whatever
runes and keys the ticks carry; no step panics. -/
theorem cursor_bounds_preserved :
    (∀ (x y w h : Int) (p : GoString) (now : Int), CursorOK (NewTextBox x y w h p now)) ∧
    ∀ tb : TextBox, CursorOK tb →
      (∀ r : Int, ∃ tb', inputRune r tb = some tb' ∧ CursorOK tb') ∧
      (∀ inp : Input, CursorOK (navKeys inp tb)) ∧
      (∀ inp : Input, ∃ tb', deleteKey inp tb = some tb' ∧ CursorOK tb') ∧
      (∀ inp : Input, ∃ tb', backspaceKey inp tb = some tb' ∧ CursorOK tb') ∧
      (∀ (inps : List Input) (k : Nat), k ≤ inps.length →
        ∃ tb', run (inps.take k) tb = some tb' ∧ CursorOK tb') := by
  refine ⟨fun x y w h p now => ?_, fun tb h => ⟨fun r => inputRune_ok h r,
    fun inp => navKeys_ok inp h, fun inp => deleteKey_ok inp h,
    fun inp => backspaceKey_ok inp h, fun inps k _ => run_ok (inps.take k) h⟩⟩
  simp [CursorOK, NewTextBox]

theorem blink_Text (inp : Input) (tb : TextBox) : (blink inp tb).Text = tb.Text := by
  unfold blink; split <;> rfl

theorem blink_CursorPos (inp : Input) (tb : TextBox) :
    (blink inp tb).CursorPos = tb.CursorPos := by
  unfold blink; split <;> rfl

theorem blink_MaxLength (inp : Input) (tb : TextBox) :
    (blink inp tb).MaxLength = tb.MaxLength := by
  unfold blink; split <;> rfl

theorem Update_typing {tb : TextBox} (hf : tb.Focused = true) (rs : List Int) (now : Int) :
    Update (Input.typing rs now) tb = inputRunes rs (blink (Input.typing rs now) tb) := by
  simp [Update, clickFocus, Input.typing, Input.idle, hf, navKeys, deleteKey, backspaceKey]

theorem Update_backspace {tb : TextBox} (hf : tb.Focused = true) (now : Int) :
    Update (Input.backspace now) tb = removeBefore (blink (Input.backspace now) tb) := by
  simp [Update, clickFocus, Input.backspace, Input.idle, hf, navKeys, deleteKey, backspaceKey,
    inputRunes]

theorem Update_delete {tb : TextBox} (hf : tb.Focused = true) (now : Int) :
    Update (Input.delete now) tb =
      deleteKey (Input.delete now) (blink (Input.delete now) tb) := by
  simp [Update, clickFocus, Input.delete, Input.idle, hf, navKeys, backspaceKey,
    inputRunes]

theorem inputRunes_single (r : Int) (tb : TextBox) : inputRunes [r] tb = inputRune r tb := by
  simp only [inputRunes]
  cases inputRune r tb <;> rfl


theorem blink_Focused (inp : Input) (tb : TextBox) :
    (blink inp tb).Focused = tb.Focused := by
  unfold blink; split <;> rfl

theorem blink_edit (inp : Input) (tb : TextBox) : edit (blink inp tb) = edit tb := by
  unfold blink; split <;> rfl

theorem removeBefore_edit {tb : TextBox} (h : CursorOK tb) :
    (removeBefore tb).map edit = some
      (if tb.CursorPos = 0 then (tb.Text, tb.CursorPos)
       else (tb.Text.take (tb.CursorPos - 1).toNat ++ tb.Text.drop tb.CursorPos.toNat,
         tb.CursorPos - 1)) := by
  by_cases hz : tb.CursorPos = 0
  · rw [if_pos hz, removeBefore_zero (by omega)]; rfl
  · rw [if_neg hz, removeBefore_eq h (by have := h.1; omega)]; rfl

theorem removeBefore_congr {tb₁ tb₂ : TextBox} (h : edit tb₁ = edit tb₂) :
    (removeBefore tb₁).map edit = (removeBefore tb₂).map edit := by
  simp only [edit, Prod.mk.injEq] at h
  obtain ⟨ht, hc⟩ := h
  unfold removeBefore
  rw [ht, hc]
  split
  · cases sliceTo tb₂.Text (tb₂.CursorPos - 1) with
    | none => rfl
    | some a =>
      cases sliceFrom tb₂.Text tb₂.CursorPos with
      | none => rfl
      | some b => rfl
  · simp [edit, ht, hc]

theorem deleteKey_congr (inp : Input) {tb₁ tb₂ : TextBox} (h : edit tb₁ = edit tb₂) :
    (deleteKey inp tb₁).map edit = (deleteKey inp tb₂).map edit := by
  simp only [edit, Prod.mk.injEq] at h
  obtain ⟨ht, hc⟩ := h
  unfold deleteKey
  rw [ht, hc]
  split
  · cases sliceTo tb₂.Text tb₂.CursorPos with
    | none => rfl
    | some a =>
      cases sliceFrom tb₂.Text (tb₂.CursorPos + 1) with
      | none => rfl
      | some b => simp [edit, hc]
  · simp [edit, ht, hc]

/-- C5 (deleteBackward).  On a box with `0 ≤ CursorPos ≤ len(Text)`, both backspace
branches of `Update` (the typed rune `'\b'` and the Backspace key), taken alone in the body
of `Update` or as a whole tick of a focused box, leave `Text` and `CursorPos` unchanged when
`CursorPos == 0`, and otherwise give `Text[:CursorPos-1] ++ Text[CursorPos:]` and
`CursorPos - 1`. -/
theorem deleteBackward_contract (tb : TextBox) (h : CursorOK tb) :
    (inputRune 8 tb).map edit = some
      (if tb.CursorPos = 0 then (tb.Text, tb.CursorPos)
       else (tb.Text.take (tb.CursorPos - 1).toNat ++ tb.Text.drop tb.CursorPos.toNat,
         tb.CursorPos - 1)) ∧
    (∀ inp : Input, inp.keyBackspace = true → (backspaceKey inp tb).map edit = some
      (if tb.CursorPos = 0 then (tb.Text, tb.CursorPos)
       else (tb.Text.take (tb.CursorPos - 1).toNat ++ tb.Text.drop tb.CursorPos.toNat,
         tb.CursorPos - 1))) ∧
    (tb.Focused = true → ∀ now : Int,
      (Update (Input.typing [8] now) tb).map edit = some
        (if tb.CursorPos = 0 then (tb.Text, tb.CursorPos)
         else (tb.Text.take (tb.CursorPos - 1).toNat ++ tb.Text.drop tb.CursorPos.toNat,
           tb.CursorPos - 1)) ∧
      (Update (Input.backspace now) tb).map edit = some
        (if tb.CursorPos = 0 then (tb.Text, tb.CursorPos)
         else (tb.Text.take (tb.CursorPos - 1).toNat ++ tb.Text.drop tb.CursorPos.toNat,
           tb.CursorPos - 1))) := by
  have e8 : ∀ t : TextBox, inputRune 8 t = removeBefore t := by
    intro t; unfold inputRune; simp
  refine ⟨?_, ?_, ?_⟩
  · rw [e8]; exact removeBefore_edit h
  · intro inp hk
    unfold backspaceKey
    rw [if_pos hk]; exact removeBefore_edit h
  · intro hf now
    constructor
    · rw [Update_typing hf, inputRunes_single, e8, removeBefore_congr (blink_edit _ tb)]
      exact removeBefore_edit h
    · rw [Update_backspace hf, removeBefore_congr (blink_edit _ tb)]
      exact removeBefore_edit h

theorem deleteKey_edit {inp : Input} {tb : TextBox} (h : CursorOK tb)
    (hk : inp.keyDelete = true) :
    (deleteKey inp tb).map edit = some
      (if tb.CursorPos = (tb.Text.length : Int) then (tb.Text, tb.CursorPos)
       else (tb.Text.take tb.CursorPos.toNat ++ tb.Text.drop (tb.CursorPos + 1).toNat,
         tb.CursorPos)) := by
  by_cases hz : tb.CursorPos = (tb.Text.length : Int)
  · rw [if_pos hz, deleteKey_noop (by omega)]; rfl
  · rw [if_neg hz, deleteKey_eq h hk (by have := h.2; omega)]; rfl

/-- C6 (deleteForward).  On a box with `0 ≤ CursorPos ≤ len(Text)`, the Delete-key branch of
`Update`, taken alone or as a whole tick of a focused box, leaves `Text` and `CursorPos`
unchanged when `CursorPos == len(Text)`, and otherwise gives
`Text[:CursorPos] ++ Text[CursorPos+1:]` with `CursorPos` unchanged. -/
theorem deleteForward_contract (tb : TextBox) (h : CursorOK tb) :
    (∀ inp : Input, inp.keyDelete = true → (deleteKey inp tb).map edit = some
      (if tb.CursorPos = (tb.Text.length : Int) then (tb.Text, tb.CursorPos)
       else (tb.Text.take tb.CursorPos.toNat ++ tb.Text.drop (tb.CursorPos + 1).toNat,
         tb.CursorPos))) ∧
    (tb.Focused = true → ∀ now : Int,
      (Update (Input.delete now) tb).map edit = some
        (if tb.CursorPos = (tb.Text.length : Int) then (tb.Text, tb.CursorPos)
         else (tb.Text.take tb.CursorPos.toNat ++ tb.Text.drop (tb.CursorPos + 1).toNat,
           tb.CursorPos))) := by
  refine ⟨fun inp hk => deleteKey_edit h hk, fun hf now => ?_⟩
  rw [Update_delete hf, deleteKey_congr _ (blink_edit _ tb)]
  exact deleteKey_edit h rfl

theorem inputRune_edit {tb : TextBox} (h : CursorOK tb) {r : Int}
    (h8 : r ≠ 8) (h10 : r ≠ 10) (h13 : r ≠ 13) :
    (inputRune r tb).map edit = some
      (if (tb.Text.length : Int) ≥ tb.MaxLength ∨ r < 32 then (tb.Text, tb.CursorPos)
       else (tb.Text.take tb.CursorPos.toNat ++ runeString r ++ tb.Text.drop tb.CursorPos.toNat,
         tb.CursorPos + 1)) := by
  have hr : ¬ (r = 10 ∨ r = 13) := by omega
  by_cases hg : (tb.Text.length : Int) ≥ tb.MaxLength ∨ r < 32
  · rw [if_pos hg, inputRune_reject_eq hr h8 (by omega)]; rfl
  · rw [if_neg hg, inputRune_insert_eq h hr h8 (by omega)]; rfl

theorem inputRune_congr (r : Int) {tb₁ tb₂ : TextBox} (h : edit tb₁ = edit tb₂)
    (hm : tb₁.MaxLength = tb₂.MaxLength) :
    (inputRune r tb₁).map edit = (inputRune r tb₂).map edit := by
  unfold inputRune
  split
  · simpa using h
  · split
    · exact removeBefore_congr h
    · simp only [edit, Prod.mk.injEq] at h
      obtain ⟨ht, hc⟩ := h
      rw [ht, hc, hm]
      split
      · cases sliceTo tb₂.Text tb₂.CursorPos with
        | none => rfl
        | some a =>
          cases sliceFrom tb₂.Text tb₂.CursorPos with
          | none => rfl
          | some b => rfl
      · simp [edit, ht, hc]

/-- C4 (insert contract, with the guard of the code).  For a focused box with
`0 ≤ CursorPos ≤ len(Text)` and a typed rune `r` other than backspace, newline and carriage
return: if `len(Text) >= MaxLength` or `r < 32`, `Text` and `CursorPos` are unchanged;
otherwise the new `Text` is `Text[:CursorPos] ++ string(r) ++ Text[CursorPos:]` and
`CursorPos` grows by exactly 1.  This holds for the loop body alone and for the whole tick. -/
theorem insert_contract (tb : TextBox) (h : CursorOK tb) (hf : tb.Focused = true) (r : Int)
    (h8 : r ≠ 8) (h10 : r ≠ 10) (h13 : r ≠ 13) :
    (inputRune r tb).map edit = some
      (if (tb.Text.length : Int) ≥ tb.MaxLength ∨ r < 32 then (tb.Text, tb.CursorPos)
       else (tb.Text.take tb.CursorPos.toNat ++ runeString r ++ tb.Text.drop tb.CursorPos.toNat,
         tb.CursorPos + 1)) ∧
    ∀ now : Int, (Update (Input.typing [r] now) tb).map edit = some
      (if (tb.Text.length : Int) ≥ tb.MaxLength ∨ r < 32 then (tb.Text, tb.CursorPos)
       else (tb.Text.take tb.CursorPos.toNat ++ runeString r ++ tb.Text.drop tb.CursorPos.toNat,
         tb.CursorPos + 1)) := by
  refine ⟨inputRune_edit h h8 h10 h13, fun now => ?_⟩
  rw [Update_typing hf, inputRunes_single,
    inputRune_congr r (blink_edit _ tb) (blink_MaxLength _ tb)]
  exact inputRune_edit h h8 h10 h13

/-- C4, witness: typing `x` into the box holding `abc` with the cursor after `ab`. -/
theorem insert_contract_witness :
    CursorOK abcBox ∧ abcBox.Focused = true ∧
    (Update (Input.typing [120] 0) abcBox).map edit = some ([97, 98, 120, 99], 3) :=
  ⟨by decide, rfl,
    ((insert_contract abcBox (by decide) rfl 120 (by decide) (by decide) (by decide)).2 0).trans
      (by decide)⟩

/-- C4, counterexample to the claim as worded: U+007F (DEL) is a control character and
is none of backspace, newline, carriage return, yet typing it into a focused box with room
left changes the text and moves the cursor. -/
theorem insert_accepts_control_DEL :
    isControl 127 = true ∧ CursorOK abcBox ∧ abcBox.Focused = true ∧
    (abcBox.Text.length : Int) < abcBox.MaxLength ∧
    (Update (Input.typing [127] 0) abcBox).map edit = some ([97, 98, 127, 99], 3) ∧
    edit abcBox = ([97, 98, 99], 2) := by
  decide

theorem runeString_ascii {r : Int} (h0 : 0 ≤ r) (h1 : r < 128) :
    (runeString r).length = 1 := by
  unfold runeString
  rw [if_neg (by omega)]
  simp only
  rw [if_pos (by omega)]
  rfl

theorem splice_take {α : Type} (l m : List α) (n : Nat) (h : n ≤ l.length) :
    (l.take n ++ m ++ l.drop n).take n = l.take n := by
  rw [List.append_assoc, List.take_append_of_le_length (by simp [h])]
  rw [List.take_take]
  simp

theorem splice_drop {α : Type} (l m : List α) (n : Nat) (h : n ≤ l.length) :
    (l.take n ++ m ++ l.drop n).drop (n + m.length) = l.drop n := by
  have hl : (l.take n ++ m).length = n + m.length := by simp [h]
  rw [← hl, List.drop_left]

/-- The box after an accepted insertion of a single-byte rune, followed by the shared
backspace body, has the text and cursor it started with. -/
theorem insert_removeBefore {tb : TextBox} (h : CursorOK tb) {r : Int}
    (hlen : (tb.Text.length : Int) < tb.MaxLength) (h32 : 32 ≤ r) (h128 : r < 128) :
    ∃ tb₁, inputRune r tb = some tb₁ ∧ CursorOK tb₁ ∧ tb₁.Focused = tb.Focused ∧
      (removeBefore tb₁).map edit = some (tb.Text, tb.CursorPos) := by
  have hins := inputRune_insert_eq h (r := r) (by omega) (by omega) ⟨hlen, by omega⟩
  obtain ⟨tb₁, e₁, ok₁⟩ := inputRune_ok h r
  have heq := hins.symm.trans e₁
  simp only [Option.some.injEq] at heq
  refine ⟨tb₁, e₁, ok₁, by rw [← heq], ?_⟩
  rw [removeBefore_edit ok₁, ← heq]
  obtain ⟨h0, h1⟩ := h
  have hl := runeString_ascii (r := r) (by omega) h128
  simp only
  rw [if_neg (by omega)]
  have e1 : (tb.CursorPos + 1 - 1).toNat = tb.CursorPos.toNat := by
    congr 1; omega
  have e2 : (tb.CursorPos + 1).toNat = tb.CursorPos.toNat + (runeString r).length := by
    rw [hl]; omega
  rw [e1, e2, splice_take _ _ _ (by omega), splice_drop _ _ _ (by omega),
    List.take_append_drop]
  simp

theorem run_pair (a b : Input) (tb : TextBox) :
    run [a, b] tb = (Update a tb).bind (Update b) := by
  simp only [run]
  cases Update a tb with
  | none => rfl
  | some t => cases h : Update b t <;> simp [h]

/-- C2 (insert/delete inverse, where the insertion is accepted).  For a box with
`0 ≤ CursorPos ≤ len(Text)` and `len(Text) < MaxLength`, and a rune `c` with
`32 ≤ c < 128`, inserting `c` and then deleting backward gives back the `Text` and
`CursorPos` held before the insertion: for the loop body followed by either backspace
branch, for two consecutive ticks of a focused box, and for one tick that carries both
runes. -/
theorem insert_then_backspace_restores (tb : TextBox) (h : CursorOK tb) (c : Int)
    (hlen : (tb.Text.length : Int) < tb.MaxLength) (h32 : 32 ≤ c) (h128 : c < 128) :
    ((inputRune c tb).bind (inputRune 8)).map edit = some (tb.Text, tb.CursorPos) ∧
    (∀ inp : Input, inp.keyBackspace = true →
      ((inputRune c tb).bind (backspaceKey inp)).map edit = some (tb.Text, tb.CursorPos)) ∧
    (tb.Focused = true → ∀ t₁ t₂ : Int,
      (run [Input.typing [c] t₁, Input.typing [8] t₂] tb).map edit
        = some (tb.Text, tb.CursorPos) ∧
      (run [Input.typing [c] t₁, Input.backspace t₂] tb).map edit
        = some (tb.Text, tb.CursorPos) ∧
      (Update (Input.typing [c, 8] t₁) tb).map edit = some (tb.Text, tb.CursorPos)) := by
  have e8 : ∀ t : TextBox, inputRune 8 t = removeBefore t := by
    intro t; unfold inputRune; simp
  refine ⟨?_, ?_, ?_⟩
  · obtain ⟨tb₁, e₁, _, _, hr⟩ := insert_removeBefore h hlen h32 h128
    rw [e₁, Option.some_bind, e8]; exact hr
  · intro inp hk
    obtain ⟨tb₁, e₁, _, _, hr⟩ := insert_removeBefore h hlen h32 h128
    rw [e₁, Option.some_bind]
    unfold backspaceKey
    rw [if_pos hk]; exact hr
  · intro hf t₁ t₂
    have hb : CursorOK (blink (Input.typing [c] t₁) tb) := blink_ok _ h
    have hb2 : CursorOK (blink (Input.typing [c, 8] t₁) tb) := blink_ok _ h
    have hlen' : ((blink (Input.typing [c] t₁) tb).Text.length : Int)
        < (blink (Input.typing [c] t₁) tb).MaxLength := by
      rw [blink_Text, blink_MaxLength]; exact hlen
    have hlen2 : ((blink (Input.typing [c, 8] t₁) tb).Text.length : Int)
        < (blink (Input.typing [c, 8] t₁) tb).MaxLength := by
      rw [blink_Text, blink_MaxLength]; exact hlen
    obtain ⟨tb₁, e₁, _, f₁, hr⟩ := insert_removeBefore hb hlen' h32 h128
    rw [blink_Focused, hf] at f₁
    rw [blink_Text, blink_CursorPos] at hr
    refine ⟨?_, ?_, ?_⟩
    · rw [run_pair, Update_typing hf, inputRunes_single, e₁, Option.some_bind,
        Update_typing f₁, inputRunes_single, e8, removeBefore_congr (blink_edit _ tb₁)]
      exact hr
    · rw [run_pair, Update_typing hf, inputRunes_single, e₁, Option.some_bind,
        Update_backspace f₁, removeBefore_congr (blink_edit _ tb₁)]
      exact hr
    · obtain ⟨tb₂, e₂, _, _, hr₂⟩ := insert_removeBefore hb2 hlen2 h32 h128
      rw [blink_Text, blink_CursorPos] at hr₂
      rw [Update_typing hf]
      simp only [inputRunes]
      rw [e₂, Option.some_bind, e8]
      cases hrem : removeBefore tb₂ with
      | none => rw [hrem] at hr₂; simp at hr₂
      | some t => rw [hrem] at hr₂; simpa using hr₂

/-- C2, witness: typing `x` and then backspace in the box holding `abc`. -/
theorem insert_then_backspace_restores_witness :
    CursorOK abcBox ∧ (abcBox.Text.length : Int) < abcBox.MaxLength ∧
    ((inputRune 120 abcBox).bind (inputRune 8)).map edit = some ([97, 98, 99], 2) :=
  ⟨by decide, by decide,
    (insert_then_backspace_restores abcBox (by decide) 120 (by decide) (by decide)
      (by decide)).1⟩

/-- C2, counterexample to the claim as worded: in a box that already holds `MaxLength`
bytes the insertion is refused, so the backspace that follows removes a character that was
there before; the text it leaves is one byte shorter than the text before the insertion. -/
theorem insert_then_backspace_full_box :
    CursorOK fullBox ∧ fullBox.Focused = true ∧
    edit fullBox = (List.replicate 100 97, 100) ∧
    ((inputRune 98 fullBox).bind (inputRune 8)).map edit = some (List.replicate 99 97, 99) ∧
    (run [Input.typing [98] 0, Input.backspace 0] fullBox).map edit =
      some (List.replicate 99 97, 99) := by
  decide

/-- The same sequence with a two-byte rune (U+00E9) in a box with room left: the cursor
advances by one byte only, and the backspace leaves the second byte of the rune behind. -/
theorem insert_then_backspace_two_byte_rune :
    CursorOK abcBox ∧
    ((inputRune 233 abcBox).bind (inputRune 8)).map edit = some ([97, 98, 169, 99], 2) := by
  decide

theorem removeBefore_bounded {M : Int} {tb : TextBox} (h : Bounded M tb) :
    ∃ tb', removeBefore tb = some tb' ∧ Bounded M tb' := by
  obtain ⟨hc, hl, hm⟩ := h
  by_cases hpos : tb.CursorPos > 0
  · refine ⟨_, removeBefore_eq hc hpos, ?_⟩
    obtain ⟨h0, h1⟩ := hc
    simp only [Bounded, CursorOK, List.length_append, List.length_take, List.length_drop]
    omega
  · exact ⟨tb, removeBefore_zero hpos, hc, hl, hm⟩

theorem inputRune_bounded {M : Int} {tb : TextBox} (h : Bounded M tb) {r : Int}
    (hr : r < 128) : ∃ tb', inputRune r tb = some tb' ∧ Bounded M tb' := by
  by_cases h1 : r = 10 ∨ r = 13
  · exact ⟨tb, by unfold inputRune; rw [if_pos h1], h⟩
  · by_cases hb : r = 8
    · obtain ⟨tb', e, ok⟩ := removeBefore_bounded h
      exact ⟨tb', by unfold inputRune; rw [if_neg h1, if_pos hb]; exact e, ok⟩
    · by_cases hg : (tb.Text.length : Int) < tb.MaxLength ∧ r ≥ 32
      · obtain ⟨hc, hl, hm⟩ := h
        refine ⟨_, inputRune_insert_eq hc h1 hb hg, ?_⟩
        obtain ⟨h0, h1⟩ := hc
        have hlen := runeString_ascii (r := r) (by omega) hr
        simp only [Bounded, CursorOK, List.length_append, List.length_take, List.length_drop,
          hlen]
        omega
      · exact ⟨tb, inputRune_reject_eq h1 hb hg, h⟩

theorem inputRunes_bounded {M : Int} (rs : List Int) : ∀ {tb : TextBox}, Bounded M tb →
    (∀ r ∈ rs, r < 128) → ∃ tb', inputRunes rs tb = some tb' ∧ Bounded M tb' := by
  induction rs with
  | nil => intro tb h _; exact ⟨tb, rfl, h⟩
  | cons r rs ih =>
    intro tb h hrs
    obtain ⟨tb₁, e₁, ok₁⟩ := inputRune_bounded h (hrs r (by simp))
    obtain ⟨tb₂, e₂, ok₂⟩ := ih ok₁ (fun x hx => hrs x (by simp [hx]))
    exact ⟨tb₂, by simp [inputRunes, e₁, e₂], ok₂⟩

theorem navKeys_MaxLength (inp : Input) (tb : TextBox) :
    (navKeys inp tb).MaxLength = tb.MaxLength := by
  unfold navKeys
  simp only
  repeat' split
  all_goals rfl

theorem navKeys_bounded {M : Int} (inp : Input) {tb : TextBox} (h : Bounded M tb) :
    Bounded M (navKeys inp tb) := by
  obtain ⟨hc, hl, hm⟩ := h
  exact ⟨navKeys_ok inp hc, by rw [navKeys_Text]; exact hl, by rw [navKeys_MaxLength]; exact hm⟩

theorem deleteKey_bounded {M : Int} (inp : Input) {tb : TextBox} (h : Bounded M tb) :
    ∃ tb', deleteKey inp tb = some tb' ∧ Bounded M tb' := by
  obtain ⟨hc, hl, hm⟩ := h
  by_cases hd : inp.keyDelete = true ∧ tb.CursorPos < (tb.Text.length : Int)
  · refine ⟨_, deleteKey_eq hc hd.1 hd.2, ?_⟩
    obtain ⟨h0, h1⟩ := hc
    simp only [Bounded, CursorOK, List.length_append, List.length_take, List.length_drop]
    omega
  · exact ⟨tb, deleteKey_noop hd, hc, hl, hm⟩

theorem Update_bounded {M : Int} (inp : Input) {tb : TextBox} (h : Bounded M tb)
    (hrs : ∀ r ∈ inp.chars, r < 128) : ∃ tb', Update inp tb = some tb' ∧ Bounded M tb' := by
  have hcf : Bounded M (clickFocus inp tb) := by
    unfold clickFocus; split <;> exact h
  have hbl : Bounded M (blink inp (clickFocus inp tb)) := by
    unfold blink; split <;> exact hcf
  unfold Update
  simp only
  split
  · exact ⟨_, rfl, hcf⟩
  · obtain ⟨tb₁, e₁, ok₁⟩ := inputRunes_bounded inp.chars hbl hrs
    obtain ⟨tb₂, e₂, ok₂⟩ := deleteKey_bounded inp (navKeys_bounded inp ok₁)
    obtain ⟨tb₃, e₃, ok₃⟩ : ∃ tb', backspaceKey inp tb₂ = some tb' ∧ Bounded M tb' := by
      unfold backspaceKey
      split
      · exact removeBefore_bounded ok₂
      · exact ⟨tb₂, rfl, ok₂⟩
    exact ⟨tb₃, by simp [e₁, e₂, e₃], ok₃⟩

theorem Op_apply_bounded {M : Int} (op : Op) {tb : TextBox} (h : Bounded M tb)
    (hop : op.fits M) : ∃ tb', op.apply tb = some tb' ∧ Bounded M tb' := by
  cases op with
  | update inp => exact Update_bounded inp h hop
  | setText text =>
    refine ⟨_, rfl, ?_⟩
    obtain ⟨_, _, hm⟩ := h
    simp only [Op.fits] at hop
    simp only [Bounded, CursorOK, SetText]
    omega
  | clear =>
    refine ⟨_, rfl, ?_⟩
    obtain ⟨hc, hl, hm⟩ := h
    simp only [Bounded, CursorOK, Clear, List.length_nil]
    omega
  | setFocus f now =>
    refine ⟨_, rfl, ?_⟩
    unfold SetFocus
    split <;> exact h

theorem applyOps_bounded {M : Int} (ops : List Op) : ∀ {tb : TextBox}, Bounded M tb →
    (∀ op ∈ ops, op.fits M) → ∃ tb', applyOps ops tb = some tb' ∧ Bounded M tb' := by
  induction ops with
  | nil => intro tb h _; exact ⟨tb, rfl, h⟩
  | cons op rest ih =>
    intro tb h hops
    obtain ⟨tb₁, e₁, ok₁⟩ := Op_apply_bounded op h (hops op (by simp))
    obtain ⟨tb₂, e₂, ok₂⟩ := ih ok₁ (fun x hx => hops x (by simp [hx]))
    exact ⟨tb₂, by simp [applyOps, e₁, e₂], ok₂⟩

/-- C3 (MaxLength invariant, for calls that fit).  The box built by `NewTextBox` has
`MaxLength = 100` and an empty text.  For every sequence of calls (ticks of `Update` with
any keys and any typed runes below 128, `SetText(s)` with `len(s) ≤ MaxLength`, `Clear`,
`SetFocus`) applied to it, every prefix of the sequence runs without a panic and ends in a
box with `len(Text) ≤ MaxLength`, `MaxLength` still being 100. -/
theorem maxLength_invariant (x y w h : Int) (p : GoString) (now : Int) (ops : List Op)
    (hops : ∀ op ∈ ops, op.fits 100) (k : Nat) :
    ∃ tb', applyOps (ops.take k) (NewTextBox x y w h p now) = some tb' ∧
      (tb'.Text.length : Int) ≤ tb'.MaxLength ∧ tb'.MaxLength = 100 := by
  have h0 : Bounded 100 (NewTextBox x y w h p now) := by
    simp [Bounded, CursorOK, NewTextBox]
  obtain ⟨tb', e, hc, hl, hm⟩ :=
    applyOps_bounded (ops.take k) h0 (fun op hop => hops op (List.mem_of_mem_take hop))
  exact ⟨tb', e, by rw [hm]; exact hl, hm⟩

/-- C3, witness: focus the box, type `hi`, replace the text by `abc`, press Backspace. -/
theorem maxLength_invariant_witness :
    (∀ op ∈ [Op.setFocus true 0, Op.update (Input.typing [104, 105] 0),
        Op.setText [97, 98, 99], Op.update (Input.backspace 0)], op.fits 100) ∧
    ∃ tb', applyOps (List.take 4 [Op.setFocus true 0, Op.update (Input.typing [104, 105] 0),
        Op.setText [97, 98, 99], Op.update (Input.backspace 0)])
        (NewTextBox 20 20 500 35 [] 0) = some tb' ∧
      (tb'.Text.length : Int) ≤ tb'.MaxLength ∧ tb'.MaxLength = 100 :=
  ⟨by decide, maxLength_invariant 20 20 500 35 [] 0 _ (by decide) 4⟩

/-- C3, counterexample to the claim as worded: `SetText` stores its argument whatever
its length, so a text of 101 bytes set on a new box exceeds `MaxLength = 100`. -/
theorem setText_exceeds_maxLength :
    (applyOps [Op.setText (List.replicate 101 97)] (NewTextBox 20 20 500 35 [] 0)).map
      (fun tb => (tb.Text.length, tb.MaxLength)) = some (101, 100) := by
  decide

/-- Typing a two-byte rune (U+00E9) into a focused box that holds 99 bytes: the guard
`len(Text) < MaxLength` passes and the text grows to 101 bytes. -/
theorem two_byte_rune_exceeds_maxLength :
    (applyOps [Op.setFocus true 0, Op.setText (List.replicate 99 97),
        Op.update (Input.typing [233] 0)] (NewTextBox 20 20 500 35 [] 0)).map
      (fun tb => (tb.Text.length, tb.MaxLength)) = some (101, 100) := by
  decide

/-- C1, witness: typing `x` and pressing Backspace in the box holding `abc`. -/
theorem cursor_bounds_preserved_witness :
    CursorOK abcBox ∧
    ∃ tb', run (List.take 2 [Input.typing [120] 0, Input.backspace 0]) abcBox = some tb' ∧
      CursorOK tb' :=
  ⟨by decide, (cursor_bounds_preserved.2 abcBox (by decide)).2.2.2.2 _ 2 (by decide)⟩

/-- C5, witness: Backspace in the box holding `abc` with the cursor after `ab`. -/
theorem deleteBackward_contract_witness :
    CursorOK abcBox ∧ (inputRune 8 abcBox).map edit = some ([97, 99], 1) :=
  ⟨by decide, (deleteBackward_contract abcBox (by decide)).1.trans (by decide)⟩

/-- C6, witness: Delete in the box holding `abc` with the cursor after `ab`. -/
theorem deleteForward_contract_witness :
    CursorOK abcBox ∧ abcBox.Focused = true ∧
    (Update (Input.delete 0) abcBox).map edit = some ([97, 98], 2) :=
  ⟨by decide, rfl, ((deleteForward_contract abcBox (by decide)).2 rfl 0).trans (by decide)⟩

/-- The cursor offset that one iteration of the `startPos` loop computes. -/
theorem cursorOffset_some (measure : GoString → Int) (d : GoString) (c s : Int) :
    (if c ≥ s then
        if c - s ≤ ((d.drop s.toNat).length : Int) then
          (sliceTo (d.drop s.toNat) (c - s)).bind fun t => some (measure t)
        else some 0
      else some 0) =
    some (if c ≥ s ∧ c - s ≤ ((d.drop s.toNat).length : Int) then
        measure ((d.drop s.toNat).take (c - s).toNat) else 0) := by
  by_cases h1 : c ≥ s
  · by_cases h2 : c - s ≤ ((d.drop s.toNat).length : Int)
    · rw [if_pos h1, if_pos h2, if_pos ⟨h1, h2⟩, sliceTo_eq (by omega) h2]
      rfl
    · rw [if_pos h1, if_neg h2, if_neg (by tauto)]
  · rw [if_neg h1, if_neg (by tauto)]

theorem findStart_spec (measure : GoString → Int) (d : GoString) (c W : Int) :
    ∀ (fuel : Nat) (s : Int), 0 ≤ s → s ≤ (d.length : Int) → (d.length : Int) - s < fuel →
      ∃ s', findStart measure d c W fuel s = some s' ∧ s ≤ s' ∧ s' ≤ (d.length : Int) ∧
        (s' < (d.length : Int) → measure (d.drop s'.toNat) ≤ W ∧
          (s' ≤ c → c ≤ (d.length : Int) →
            measure ((d.drop s'.toNat).take (c - s').toNat) ≤ W)) := by
  intro fuel
  induction fuel with
  | zero => intro s h0 h1 h2; omega
  | succ fuel ih =>
    intro s h0 h1 h2
    unfold findStart
    by_cases hlt : s < (d.length : Int)
    · rw [if_pos hlt, sliceFrom_eq h0 h1, Option.some_bind]
      simp only
      rw [cursorOffset_some measure d c s, Option.some_bind]
      generalize hoff : (if c ≥ s ∧ c - s ≤ ((d.drop s.toNat).length : Int) then
        measure ((d.drop s.toNat).take (c - s).toNat) else 0) = off
      by_cases hfit : measure (d.drop s.toNat) ≤ W ∧ off ≤ W
      · rw [if_pos hfit]
        refine ⟨s, rfl, le_refl _, h1, fun _ => ⟨hfit.1, fun hsc hcl => ?_⟩⟩
        have := hfit.2
        rw [← hoff, if_pos ⟨hsc, by simp only [List.length_drop]; omega⟩] at this
        exact this
      · rw [if_neg hfit]
        obtain ⟨s', e, hs, hs', hfit'⟩ := ih (s + 1) (by omega) (by omega) (by omega)
        exact ⟨s', e, by omega, hs', hfit'⟩
    · rw [if_neg hlt]
      exact ⟨s, rfl, le_refl _, h1, fun h => absurd h hlt⟩

theorem visibleText_fits (measure : GoString → Int) (d : GoString) (c W : Int)
    (hfit : measure d ≤ W) : visibleText measure d c W = some d := by
  unfold visibleText
  rw [if_neg (by omega)]

theorem visibleText_scrolled (measure : GoString → Int) (hm0 : measure [] = 0)
    (d : GoString) (c W : Int) (hW : 0 ≤ W) (hwide : W < measure d) :
    ∃ s' : Int, 0 < s' ∧ s' ≤ (d.length : Int) ∧
      visibleText measure d c W = some (d.drop s'.toNat) ∧
      measure (d.drop s'.toNat) ≤ W ∧
      (s' ≤ c → c ≤ (d.length : Int) →
        measure ((d.drop s'.toNat).take (c - s').toNat) ≤ W) := by
  obtain ⟨s', e, h0, h1, hfit⟩ :=
    findStart_spec measure d c W (d.length + 1) 0 (le_refl 0) (by omega) (by push_cast; omega)
  have hnil : ∀ s : Int, (d.length : Int) ≤ s → d.drop s.toNat = [] := by
    intro s hs
    apply List.drop_of_length_le
    omega
  have hv : measure (d.drop s'.toNat) ≤ W := by
    by_cases hlt : s' < (d.length : Int)
    · exact (hfit hlt).1
    · rw [hnil s' (by omega), hm0]; exact hW
  have hpos : 0 < s' := by
    by_contra hle
    have hz : s' = 0 := by omega
    rw [hz] at hv
    simp at hv
    omega
  refine ⟨s', hpos, h1, ?_, hv, fun hsc hcl => ?_⟩
  · unfold visibleText
    rw [if_pos (by omega), e, Option.some_bind, sliceFrom_eq (by omega) h1, Option.some_bind,
      if_neg (by omega)]
  · by_cases hlt : s' < (d.length : Int)
    · exact (hfit hlt).2 hsc hcl
    · rw [hnil s' (by omega), List.take_nil, hm0]; exact hW

theorem cursorX_whole (measure : GoString → Int)
    (tb : TextBox) (hc : CursorOK tb) (textX W : Int) (hW : 0 ≤ W)
    (hfit : measure tb.Text ≤ W) :
    ∃ c, cursorX measure tb textX tb.Text = some c ∧
      (measure (tb.Text.take tb.CursorPos.toNat) ≤ measure tb.Text →
        ∀ cx, c = some cx → cx - textX ≤ W) := by
  obtain ⟨hc0, hc1⟩ := hc
  unfold cursorX
  split
  · split
    · rw [sliceTo_eq hc0 hc1, Option.some_bind, if_neg (by omega), Option.some_bind]
      refine ⟨_, rfl, fun hpre cx h => ?_⟩
      simp only [Option.some.injEq] at h
      omega
    · refine ⟨_, rfl, fun _ cx h => ?_⟩
      simp only [Option.some.injEq] at h
      omega
  · exact ⟨_, rfl, fun _ cx h => by simp at h⟩

theorem cursorX_scrolled (measure : GoString → Int) (hm0 : measure [] = 0)
    (tb : TextBox) (hc : CursorOK tb) (textX W : Int) (hW : 0 ≤ W) (s' : Int)
    (hs0 : 0 < s') (hs1 : s' ≤ (tb.Text.length : Int))
    (hcur : s' ≤ tb.CursorPos → tb.CursorPos ≤ (tb.Text.length : Int) →
      measure ((tb.Text.drop s'.toNat).take (tb.CursorPos - s').toNat) ≤ W) :
    ∃ c, cursorX measure tb textX (tb.Text.drop s'.toNat) = some c ∧
      ∀ cx, c = some cx → cx - textX ≤ W := by
  obtain ⟨hc0, hc1⟩ := hc
  have hlen : ((tb.Text.drop s'.toNat).length : Int) = (tb.Text.length : Int) - s' := by
    rw [List.length_drop]; omega
  have hsp : (tb.Text.length : Int) - ((tb.Text.length : Int) - s') = s' := by omega
  unfold cursorX
  split
  · split
    · rw [sliceTo_eq hc0 hc1, Option.some_bind, if_pos (by omega)]
      simp only
      rw [hlen, hsp]
      by_cases hge : tb.CursorPos ≥ s'
      · rw [if_pos hge, if_pos (by omega), sliceTo_eq (by omega) (by omega), Option.some_bind]
        refine ⟨_, rfl, fun cx h => ?_⟩
        simp only [Option.some.injEq] at h
        have := hcur hge hc1
        omega
      · rw [if_neg hge, Option.some_bind]
        refine ⟨_, rfl, fun cx h => ?_⟩
        simp only [Option.some.injEq] at h
        rw [hm0] at h
        omega
    · refine ⟨_, rfl, fun cx h => ?_⟩
      simp only [Option.some.injEq] at h
      omega
  · exact ⟨_, rfl, fun cx h => by simp at h⟩

/-- For any measurement with `measure("") = 0` and a box whose available width
`Width - 26` is not negative, `Draw` runs without a panic and the text it draws fits.  The
cursor bar is within the width as well when the text is scrolled, and also when the whole
text is shown and the part before the cursor measures no more than the whole. -/
theorem Draw_fits (measure : GoString → Int) (hm0 : measure [] = 0)
    (tb : TextBox) (hc : CursorOK tb) (hW : 0 ≤ tb.Width - 26) :
    ∃ d, Draw measure tb = some d ∧ measure d.visibleText ≤ tb.Width - 26 ∧
      ((measure tb.Text ≤ tb.Width - 26 →
          measure (tb.Text.take tb.CursorPos.toNat) ≤ measure tb.Text) →
        ∀ cx, d.cursorX = some cx → cx - d.textX ≤ tb.Width - 26) := by
  have hWeq : tb.Width - 8 * 2 - 10 = tb.Width - 26 := by omega
  unfold Draw
  simp only
  rw [hWeq]
  by_cases hph : tb.Text = [] ∧ tb.Focused = false
  · -- the placeholder is shown and no cursor is drawn
    rw [if_pos hph]
    have hcur : ∀ v, cursorX measure tb (tb.X + 8) v = some none := by
      intro v; unfold cursorX; simp [hph.2]
    by_cases hfit : measure tb.PlaceholderText ≤ tb.Width - 26
    · rw [visibleText_fits _ _ _ _ hfit, Option.some_bind, hcur, Option.some_bind]
      exact ⟨_, rfl, hfit, fun _ cx h => by simp at h⟩
    · obtain ⟨s', _, _, e, hv, _⟩ := visibleText_scrolled measure hm0 tb.PlaceholderText
        tb.CursorPos (tb.Width - 26) hW (by omega)
      rw [e, Option.some_bind, hcur, Option.some_bind]
      exact ⟨_, rfl, hv, fun _ cx h => by simp at h⟩
  · rw [if_neg hph]
    by_cases hfit : measure tb.Text ≤ tb.Width - 26
    · -- the whole text is shown
      obtain ⟨c, ec, hcx⟩ := cursorX_whole measure tb hc (tb.X + 8) _ hW hfit
      rw [visibleText_fits _ _ _ _ hfit, Option.some_bind, ec, Option.some_bind]
      exact ⟨_, rfl, hfit, fun hpre => hcx (hpre hfit)⟩
    · -- the text is scrolled
      obtain ⟨s', hs0, hs1, e, hv, hcur⟩ := visibleText_scrolled measure hm0 tb.Text
        tb.CursorPos (tb.Width - 26) hW (by omega)
      obtain ⟨c, ec, hcx⟩ :=
        cursorX_scrolled measure hm0 tb hc (tb.X + 8) _ hW s' hs0 hs1 hcur
      rw [e, Option.some_bind, ec, Option.some_bind]
      exact ⟨_, rfl, hv, fun _ => hcx⟩

theorem measure7x13_nil : measure7x13 [] = 0 := rfl

theorem measure7x13_take_le (s : GoString) (k : Nat) :
    measure7x13 (s.take k) ≤ measure7x13 s := by
  unfold measure7x13
  have hl : (s.take k).length ≤ s.length := by
    rw [List.length_take]; exact Nat.min_le_right _ _
  split <;> split <;> omega

/-- C7, counterexample to the claim as worded: in a box 20 pixels wide the available
width is `20 - 26 = -6`; `Draw` shows the empty string, whose measured width 0 is not
`≤ -6`, and draws the cursor bar at offset 0, which is not `≤ -6` either. -/
theorem viewport_negative_width :
    CursorOK narrowBox ∧ narrowBox.Width - 26 = -6 ∧
    Draw boundStringMaxX narrowBox
      = some { visibleText := [], textX := 28, cursorX := some 28 } ∧
    ¬ (boundStringMaxX [] ≤ narrowBox.Width - 26) ∧
    ¬ ((28 : Int) - 28 ≤ narrowBox.Width - 26) := by
  decide

/-- C8, the code at the failing input: twenty letters in a box with room for seven
glyphs, the cursor at position 0.  The text is wider than the available 48 pixels, which
is more than one glyph (6 pixels); the loop stops at `startPos = 13`, past the cursor; the
seven last letters are shown and the cursor bar is drawn at their left edge. -/
theorem viewport_start_past_cursor :
    CursorOK longBox ∧ longBox.Width - 26 = 48 ∧ measure7x13 [97] ≤ 48 ∧
    measure7x13 longBox.Text > 48 ∧
    findStart measure7x13 longBox.Text longBox.CursorPos 48 (longBox.Text.length + 1) 0
      = some 13 ∧
    ¬ ((13 : Int) ≤ longBox.CursorPos) ∧
    Draw measure7x13 longBox =
      some { visibleText := List.replicate 7 97, textX := 28, cursorX := some 28 } := by
  decide

namespace Button

theorem Update_cases (inp : Input) (b : Button) (he : b.Enabled = true) :
    Update inp b =
      if b.Contains inp.cursorX inp.cursorY && inp.mouseDown then
        ({ b with Hovered := b.Contains inp.cursorX inp.cursorY, Pressed := true }, 0)
      else if b.Pressed then
        ({ b with Hovered := b.Contains inp.cursorX inp.cursorY, Pressed := false },
          if b.Contains inp.cursorX inp.cursorY && b.hasOnClick then 1 else 0)
      else ({ b with Hovered := b.Contains inp.cursorX inp.cursorY }, 0) := by
  unfold Update Contains
  rw [if_neg (by simp [he])]
  simp only
  split
  · split
    · rfl
    · rename_i hp
      simp only [Bool.not_eq_false] at hp
      rw [← hp]
  · rfl

theorem Update_disabled (inp : Input) (b : Button) (he : b.Enabled = false) :
    Update inp b = (b, 0) := by
  unfold Update
  rw [if_pos he]

theorem Update_Enabled (inp : Input) (b : Button) :
    (Update inp b).1.Enabled = b.Enabled := by
  by_cases he : b.Enabled = true
  · rw [Update_cases inp b he]
    repeat' split
    all_goals rfl
  · rw [Update_disabled inp b (by simpa using he)]

theorem Update_Contains (inp : Input) (b : Button) (x y : Int) :
    (Update inp b).1.Contains x y = b.Contains x y := by
  by_cases he : b.Enabled = true
  · rw [Update_cases inp b he]
    repeat' split
    all_goals rfl
  · rw [Update_disabled inp b (by simpa using he)]

theorem Update_hasOnClick (inp : Input) (b : Button) :
    (Update inp b).1.hasOnClick = b.hasOnClick := by
  by_cases he : b.Enabled = true
  · rw [Update_cases inp b he]
    repeat' split
    all_goals rfl
  · rw [Update_disabled inp b (by simpa using he)]

theorem after_Enabled (inps : List Input) : ∀ b : Button, (after inps b).Enabled = b.Enabled := by
  induction inps with
  | nil => intro b; rfl
  | cons inp rest ih => intro b; simp only [after]; rw [ih, Update_Enabled]

theorem after_Contains (inps : List Input) (x y : Int) :
    ∀ b : Button, (after inps b).Contains x y = b.Contains x y := by
  induction inps with
  | nil => intro b; rfl
  | cons inp rest ih => intro b; simp only [after]; rw [ih, Update_Contains]

theorem after_append (xs ys : List Input) :
    ∀ b : Button, after (xs ++ ys) b = after ys (after xs b) := by
  induction xs with
  | nil => intro b; rfl
  | cons inp rest ih => intro b; exact ih _

/-- A tick that calls `OnClick` calls it once, has the pointer inside the bounds with the
primary button up, started with `Pressed` set and ends with it cleared. -/
theorem Update_fired {inp : Input} {b : Button} (he : b.Enabled = true)
    (hf : (Update inp b).2 ≥ 1) :
    (Update inp b).2 = 1 ∧ b.Contains inp.cursorX inp.cursorY = true ∧
      inp.mouseDown = false ∧ b.Pressed = true ∧ (Update inp b).1.Pressed = false := by
  rw [Update_cases inp b he] at hf ⊢
  by_cases h1 : (b.Contains inp.cursorX inp.cursorY && inp.mouseDown) = true
  · rw [if_pos h1] at hf; simp at hf
  · rw [if_neg h1] at hf ⊢
    by_cases h2 : b.Pressed = true
    · rw [if_pos h2] at hf ⊢
      by_cases h3 : (b.Contains inp.cursorX inp.cursorY && b.hasOnClick) = true
      · rw [if_pos h3]
        simp only [Bool.and_eq_true] at h3
        refine ⟨rfl, h3.1, ?_, h2, rfl⟩
        simp only [Bool.and_eq_true, not_and, Bool.not_eq_true] at h1
        exact h1 h3.1
      · rw [if_neg h3] at hf; simp at hf
    · rw [if_neg h2] at hf; simp at hf

/-- After a tick of an enabled button, `Pressed` is set only if the primary button was
down on that tick. -/
theorem Update_pressed {inp : Input} {b : Button} (he : b.Enabled = true)
    (hp : (Update inp b).1.Pressed = true) : inp.mouseDown = true := by
  rw [Update_cases inp b he] at hp
  by_cases h1 : (b.Contains inp.cursorX inp.cursorY && inp.mouseDown) = true
  · simp only [Bool.and_eq_true] at h1; exact h1.2
  · rw [if_neg h1] at hp
    by_cases h2 : b.Pressed = true
    · rw [if_pos h2] at hp; simp at hp
    · rw [if_neg h2] at hp; exact absurd hp h2

theorem after_pressed (mid : List Input) : ∀ b : Button, b.Enabled = true →
    b.Pressed = false → (after mid b).Pressed = true → ∃ m ∈ mid, m.mouseDown = true := by
  induction mid with
  | nil => intro b _ h0 h1; simp only [after] at h1; rw [h0] at h1; exact absurd h1 (by simp)
  | cons inp rest ih =>
    intro b he _ h1
    simp only [after] at h1
    by_cases hp : (Update inp b).1.Pressed = true
    · exact ⟨inp, by simp, Update_pressed he hp⟩
    · obtain ⟨m, hm, hd⟩ := ih _ (by rw [Update_Enabled]; exact he) (by simpa using hp) h1
      exact ⟨m, by simp [hm], hd⟩

end Button

theorem downUpTransitions_head_le (l : List Bool) :
    downUpTransitions (false :: l) ≤ downUpTransitions (true :: l) := by
  cases l with
  | nil => simp [downUpTransitions]
  | cons d rest => simp [downUpTransitions]

theorem downUpTransitions_false (l : List Bool) :
    downUpTransitions (false :: l) = downUpTransitions l := by
  cases l with
  | nil => simp [downUpTransitions]
  | cons d rest => simp [downUpTransitions]

theorem Button.clicks_le (inps : List Input) : ∀ b : Button, b.Enabled = true →
    Button.clicks inps b ≤ downUpTransitions (b.Pressed :: inps.map fun i => i.mouseDown) := by
  induction inps with
  | nil => intro b _; simp [Button.clicks]
  | cons inp rest ih =>
    intro b he
    have hrest := ih (Button.Update inp b).1 (by rw [Button.Update_Enabled]; exact he)
    simp only [Button.clicks, List.map_cons, downUpTransitions]
    have hmono : downUpTransitions ((Button.Update inp b).1.Pressed ::
        rest.map fun i => i.mouseDown) ≤
        downUpTransitions (inp.mouseDown :: rest.map fun i => i.mouseDown) := by
      by_cases hp : (Button.Update inp b).1.Pressed = true
      · rw [hp, Button.Update_pressed he hp]
      · have hp' : (Button.Update inp b).1.Pressed = false := by simpa using hp
        rw [hp']
        cases inp.mouseDown
        · exact le_refl _
        · exact downUpTransitions_head_le _
    have hterm : (Button.Update inp b).2 ≤
        (if (b.Pressed && !inp.mouseDown) = true then 1 else 0) := by
      by_cases hf : (Button.Update inp b).2 ≥ 1
      · obtain ⟨h1, _, hup, hpr, _⟩ := Button.Update_fired he hf
        simp [h1, hpr, hup]
      · omega
    omega

theorem Button.Update_press {b : Button} (he : b.Enabled = true) {down : Input}
    (hd : down.mouseDown = true) (hin : b.Contains down.cursorX down.cursorY = true) :
    (Button.Update down b).2 = 0 ∧ (Button.Update down b).1.Pressed = true := by
  rw [Button.Update_cases down b he, if_pos (by simp [hin, hd])]
  exact ⟨rfl, rfl⟩

theorem Button.Update_release {b : Button} (he : b.Enabled = true) (hp : b.Pressed = true)
    {up : Input} (hu : up.mouseDown = false) :
    (Button.Update up b).2 =
        (if (b.Contains up.cursorX up.cursorY && b.hasOnClick) = true then 1 else 0) ∧
      (Button.Update up b).1.Pressed = false := by
  rw [Button.Update_cases up b he, if_neg (by simp [hu]), if_pos hp]
  exact ⟨rfl, rfl⟩

/-- C9 (click-release contract).  For an enabled button with a non-nil `OnClick`,
whatever its `Pressed` flag (so in particular with `Pressed == false`): a tick with the
pointer inside the bounds and the primary button down calls nothing and sets `Pressed`; a
following tick with the button up and the pointer still inside the bounds calls `OnClick`
exactly once; a following tick with the button up and the pointer outside the bounds calls
nothing; in both cases `Pressed` is false afterwards. -/
theorem click_release_contract (b : Button) (he : b.Enabled = true)
    (hc : b.hasOnClick = true)
    (down : Input) (hd : down.mouseDown = true)
    (hin : b.Contains down.cursorX down.cursorY = true) :
    (Button.Update down b).2 = 0 ∧ (Button.Update down b).1.Pressed = true ∧
    (∀ up : Input, up.mouseDown = false → b.Contains up.cursorX up.cursorY = true →
      (Button.Update up (Button.Update down b).1).2 = 1 ∧
      Button.clicks [down, up] b = 1 ∧ (Button.after [down, up] b).Pressed = false) ∧
    (∀ up : Input, up.mouseDown = false → b.Contains up.cursorX up.cursorY = false →
      (Button.Update up (Button.Update down b).1).2 = 0 ∧
      Button.clicks [down, up] b = 0 ∧ (Button.after [down, up] b).Pressed = false) := by
  have h1 := Button.Update_press he hd hin
  have he1 : (Button.Update down b).1.Enabled = true := by
    rw [Button.Update_Enabled]; exact he
  have hclicks : ∀ up : Input, Button.clicks [down, up] b =
      (Button.Update up (Button.Update down b).1).2 := by
    intro up; simp only [Button.clicks]; rw [h1.1]; omega
  have hafter : ∀ up : Input, Button.after [down, up] b =
      (Button.Update up (Button.Update down b).1).1 := fun up => rfl
  refine ⟨h1.1, h1.2, fun up hu hi => ?_, fun up hu ho => ?_⟩
  · have h2 := Button.Update_release he1 h1.2 hu
    rw [Button.Update_Contains, hi, Button.Update_hasOnClick, hc] at h2
    rw [hclicks, hafter]
    exact ⟨h2.1, h2.1, h2.2⟩
  · have h2 := Button.Update_release he1 h1.2 hu
    rw [Button.Update_Contains, ho] at h2
    rw [hclicks, hafter]
    exact ⟨h2.1, h2.1, h2.2⟩

/-- C9, witness: bounds `(0, 0, 50, 20)`, press at `(10, 10)`, then release at `(10, 10)`
(one call) or at `(100, 100)` (no call). -/
theorem click_release_contract_witness :
    sampleButton.Enabled = true ∧ sampleButton.Pressed = false ∧
    sampleButton.hasOnClick = true ∧ sampleButton.Contains 10 10 = true ∧
    sampleButton.Contains 100 100 = false ∧
    Button.clicks [Input.pointer 10 10 true, Input.pointer 10 10 false] sampleButton = 1 ∧
    Button.clicks [Input.pointer 10 10 true, Input.pointer 100 100 false] sampleButton = 0 ∧
    (Button.after [Input.pointer 10 10 true, Input.pointer 10 10 false] sampleButton).Pressed
      = false ∧
    (Button.after [Input.pointer 10 10 true, Input.pointer 100 100 false] sampleButton).Pressed
      = false :=
  have h := click_release_contract sampleButton rfl rfl (Input.pointer 10 10 true) rfl
    (by decide)
  ⟨rfl, rfl, rfl, by decide, by decide,
    (h.2.2.1 (Input.pointer 10 10 false) rfl (by decide)).2.1,
    (h.2.2.2 (Input.pointer 100 100 false) rfl (by decide)).2.1,
    (h.2.2.1 (Input.pointer 10 10 false) rfl (by decide)).2.2,
    (h.2.2.2 (Input.pointer 100 100 false) rfl (by decide)).2.2⟩

/-- C10 (one activation per press-release cycle, counted from the button's own state).
For an enabled button and any sequence of ticks: a tick that calls `OnClick` calls it once,
with the pointer inside the bounds and the primary button up; between two ticks that call
`OnClick` there is a tick with the primary button down; the number of calls is at most the
number of down-to-up transitions of the sequence that starts with the button's `Pressed`
flag followed by the samples, which for a button that starts with `Pressed == false` is
the number of down-to-up transitions of the samples. -/
theorem one_activation_per_cycle (b : Button) (he : b.Enabled = true) :
    (∀ (pre : List Input) (inp : Input),
      (Button.Update inp (Button.after pre b)).2 ≥ 1 →
        (Button.Update inp (Button.after pre b)).2 = 1 ∧
        b.Contains inp.cursorX inp.cursorY = true ∧ inp.mouseDown = false) ∧
    (∀ (pre : List Input) (inp : Input) (mid : List Input) (inp' : Input),
      (Button.Update inp (Button.after pre b)).2 ≥ 1 →
      (Button.Update inp' (Button.after (pre ++ inp :: mid) b)).2 ≥ 1 →
        ∃ m ∈ mid, m.mouseDown = true) ∧
    (∀ inps : List Input,
      Button.clicks inps b ≤ downUpTransitions (b.Pressed :: inps.map fun i => i.mouseDown)) ∧
    (b.Pressed = false → ∀ inps : List Input,
      Button.clicks inps b ≤ downUpTransitions (inps.map fun i => i.mouseDown)) := by
  have hen : ∀ pre : List Input, (Button.after pre b).Enabled = true := by
    intro pre; rw [Button.after_Enabled]; exact he
  refine ⟨fun pre inp hf => ?_, fun pre inp mid inp' hf hf' => ?_,
    fun inps => Button.clicks_le inps b he, fun hp inps => ?_⟩
  · obtain ⟨h1, hin, hup, _, _⟩ := Button.Update_fired (hen pre) hf
    rw [Button.after_Contains] at hin
    exact ⟨h1, hin, hup⟩
  · obtain ⟨_, _, _, _, hclr⟩ := Button.Update_fired (hen pre) hf
    obtain ⟨_, _, _, hset, _⟩ := Button.Update_fired (hen (pre ++ inp :: mid)) hf'
    rw [Button.after_append] at hset
    simp only [Button.after] at hset
    exact Button.after_pressed mid _ (by rw [Button.Update_Enabled]; exact hen pre) hclr hset
  · have := Button.clicks_le inps b he
    rw [hp, downUpTransitions_false] at this
    exact this

/-- C10, witness: the sample button pressed at `(10, 10)`, released there, pressed and
released again. -/
theorem one_activation_per_cycle_witness :
    sampleButton.Enabled = true ∧ sampleButton.Pressed = false ∧
    Button.clicks [Input.pointer 10 10 true, Input.pointer 10 10 false,
        Input.pointer 10 10 true, Input.pointer 10 10 false] sampleButton ≤
      downUpTransitions ([Input.pointer 10 10 true, Input.pointer 10 10 false,
        Input.pointer 10 10 true, Input.pointer 10 10 false].map fun i => i.mouseDown) :=
  ⟨rfl, rfl, (one_activation_per_cycle sampleButton rfl).2.2.2 rfl _⟩

/-- C10, counterexample to the claim as worded: an enabled button that is already
`Pressed` and receives the single sample `(10, 10)` with the primary button up calls
`OnClick` once, while that sequence of samples has no down-to-up transition. -/
theorem activation_without_transition :
    heldButton.Enabled = true ∧
    Button.clicks [Input.pointer 10 10 false] heldButton = 1 ∧
    downUpTransitions ([Input.pointer 10 10 false].map fun i => i.mouseDown) = 0 := by
  decide

/-- C11 (disabled controls).  For a button with `Enabled == false`, whatever its `Hovered`
and `Pressed` flags: one tick of `Update` calls `OnClick` zero times and leaves the button
as it was, so does any sequence of ticks, and `Draw` selects the disabled grey
`(108, 117, 125, 255)` as background (and `(200, 200, 200, 255)` for the label), not
`HoverColor`. -/
theorem disabled_button_inert (b : Button) (hd : b.Enabled = false) :
    (∀ inp : Input, Button.Update inp b = (b, 0)) ∧
    (∀ inps : List Input, Button.clicks inps b = 0 ∧ Button.after inps b = b) ∧
    b.drawBackground = (108, 117, 125, 255) ∧
    b.drawTextColor = (200, 200, 200, 255) := by
  have h1 : ∀ inp : Input, Button.Update inp b = (b, 0) :=
    fun inp => Button.Update_disabled inp b hd
  refine ⟨h1, fun inps => ?_, ?_, ?_⟩
  · induction inps with
    | nil => exact ⟨rfl, rfl⟩
    | cons inp rest ih =>
      simp only [Button.clicks, Button.after, h1 inp]
      exact ⟨by omega, ih.2⟩
  · unfold Button.drawBackground; rw [if_pos hd]
  · unfold Button.drawTextColor; rw [if_pos hd]

/-- C11, witness: a disabled button with `Hovered` and `Pressed` set and a blue hover
colour, clicked and released inside its bounds. -/
theorem disabled_button_inert_witness :
    disabledButton.Enabled = false ∧ disabledButton.Hovered = true ∧
    disabledButton.Pressed = true ∧ disabledButton.HoverColor = (0, 86, 179, 255) ∧
    Button.clicks [Input.pointer 10 10 true, Input.pointer 10 10 false] disabledButton = 0 ∧
    disabledButton.drawBackground = (108, 117, 125, 255) :=
  have h := disabled_button_inert disabledButton rfl
  ⟨rfl, rfl, rfl, rfl, (h.2.1 _).1, h.2.2.1⟩

theorem firstIndex_none (id : GoString) (l : List Todo) : ∀ i : Nat,
    TodoList.firstIndex id l i = none ↔ ∀ t ∈ l, t.ID ≠ id := by
  induction l with
  | nil => intro i; simp [TodoList.firstIndex]
  | cons t rest ih =>
    intro i
    unfold TodoList.firstIndex
    by_cases h : t.ID = id
    · simp [h]
    · rw [if_neg h, ih (i + 1)]
      simp [h]

theorem firstIndex_some (id : GoString) (l : List Todo) : ∀ i k : Nat,
    TodoList.firstIndex id l i = some k →
      ∃ pre t post, l = pre ++ t :: post ∧ t.ID = id ∧ (∀ x ∈ pre, x.ID ≠ id) ∧
        k = i + pre.length := by
  induction l with
  | nil => intro i k h; simp [TodoList.firstIndex] at h
  | cons t rest ih =>
    intro i k h
    unfold TodoList.firstIndex at h
    by_cases hid : t.ID = id
    · rw [if_pos hid] at h
      simp only [Option.some.injEq] at h
      exact ⟨[], t, rest, rfl, hid, by simp, by simp [h]⟩
    · rw [if_neg hid] at h
      obtain ⟨pre, u, post, e, hu, hpre, hk⟩ := ih (i + 1) k h
      refine ⟨t :: pre, u, post, by rw [e]; rfl, hu, ?_, by simp only [List.length_cons]; omega⟩
      intro x hx
      rcases List.mem_cons.mp hx with rfl | hx
      · exact hid
      · exact hpre x hx

theorem DeleteTodo_found (id : GoString) (tl : TodoList)
    (h : (TodoList.DeleteTodo id tl).2 = true) :
    ∃ pre t post, tl.Todos = pre ++ t :: post ∧ t.ID = id ∧ (∀ x ∈ pre, x.ID ≠ id) ∧
      (TodoList.DeleteTodo id tl).1.Todos = pre ++ post := by
  unfold TodoList.DeleteTodo at h ⊢
  cases hf : TodoList.firstIndex id tl.Todos 0 with
  | none => rw [hf] at h; simp at h
  | some k =>
    obtain ⟨pre, t, post, e, ht, hpre, hk⟩ := firstIndex_some id tl.Todos 0 k hf
    refine ⟨pre, t, post, e, ht, hpre, ?_⟩
    have hk' : k = pre.length := by omega
    simp only
    rw [e, hk']
    simp

theorem DeleteTodo_missing (id : GoString) (tl : TodoList)
    (h : ∀ t ∈ tl.Todos, t.ID ≠ id) : TodoList.DeleteTodo id tl = (tl, false) := by
  unfold TodoList.DeleteTodo
  rw [(firstIndex_none id tl.Todos 0).mpr h]

theorem DeleteTodo_true_iff (id : GoString) (tl : TodoList) :
    (TodoList.DeleteTodo id tl).2 = true ↔ ∃ t ∈ tl.Todos, t.ID = id := by
  constructor
  · intro h
    obtain ⟨pre, t, post, e, ht, _, _⟩ := DeleteTodo_found id tl h
    exact ⟨t, by rw [e]; simp, ht⟩
  · intro ⟨t, hm, ht⟩
    by_contra hne
    have hnone : TodoList.firstIndex id tl.Todos 0 = none := by
      unfold TodoList.DeleteTodo at hne
      cases hf : TodoList.firstIndex id tl.Todos 0 with
      | none => rfl
      | some k => rw [hf] at hne; simp at hne
    exact (firstIndex_none id tl.Todos 0).mp hnone t hm ht

theorem DeleteTodo_false (id : GoString) (tl : TodoList)
    (h : (TodoList.DeleteTodo id tl).2 = false) : (TodoList.DeleteTodo id tl).1 = tl := by
  have hno : ∀ t ∈ tl.Todos, t.ID ≠ id := by
    intro t hm ht
    have := (DeleteTodo_true_iff id tl).mpr ⟨t, hm, ht⟩
    rw [h] at this
    exact absurd this (by simp)
  rw [DeleteTodo_missing id tl hno]

/-- C17 (DeleteTodo).  `DeleteTodo(id)` returns true exactly when some todo of the list has
that ID.  When it returns true the list was `pre ++ t :: post` with `t` the first todo
having that ID, and the list afterwards is `pre ++ post`: that one todo is removed and all
others keep their order.  When it returns false the list is unchanged. -/
theorem DeleteTodo_contract (tl : TodoList) (id : GoString) :
    ((TodoList.DeleteTodo id tl).2 = true ↔ ∃ t ∈ tl.Todos, t.ID = id) ∧
    ((TodoList.DeleteTodo id tl).2 = true →
      ∃ pre t post, tl.Todos = pre ++ t :: post ∧ t.ID = id ∧ (∀ x ∈ pre, x.ID ≠ id) ∧
        (TodoList.DeleteTodo id tl).1.Todos = pre ++ post) ∧
    ((TodoList.DeleteTodo id tl).2 = false → (TodoList.DeleteTodo id tl).1 = tl) := by
  exact ⟨DeleteTodo_true_iff id tl, DeleteTodo_found id tl, DeleteTodo_false id tl⟩

/-- C17, witness: deleting the first of `Test 1`, `Test 2` returns true and leaves
`Test 2`; deleting a stale identifier returns false and changes nothing. -/
theorem DeleteTodo_contract_witness :
    (TodoList.DeleteTodo [105, 100, 49] testList).2 = true ∧
    (∃ pre t post, testList.Todos = pre ++ t :: post ∧ t.ID = [105, 100, 49] ∧
      (∀ x ∈ pre, x.ID ≠ [105, 100, 49]) ∧
      (TodoList.DeleteTodo [105, 100, 49] testList).1.Todos = pre ++ post) ∧
    (TodoList.DeleteTodo [105, 100, 49] testList).1.Todos.map (fun t => t.Text)
      = [[84, 101, 115, 116, 32, 50]] ∧
    TodoList.DeleteTodo [120] testList = (testList, false) :=
  ⟨by decide, (DeleteTodo_contract testList [105, 100, 49]).2.1 (by decide), by decide,
    by decide⟩

/-- C18 (second delete returns false, for a list in which the ID occurs at most once).
When at most one todo of the list has the ID `id`, a second `DeleteTodo(id)` on the list
left by a first one returns false and leaves that list unchanged. -/
theorem second_delete_returns_false (tl : TodoList) (id : GoString)
    (huniq : tl.Todos.countP (fun t => decide (t.ID = id)) ≤ 1) :
    TodoList.DeleteTodo id (TodoList.DeleteTodo id tl).1 =
      ((TodoList.DeleteTodo id tl).1, false) := by
  apply DeleteTodo_missing
  by_cases h : (TodoList.DeleteTodo id tl).2 = true
  · obtain ⟨pre, t, post, e, ht, hpre, hres⟩ := DeleteTodo_found id tl h
    rw [hres]
    rw [e, List.countP_append, List.countP_cons] at huniq
    simp only [ht, decide_True, if_true] at huniq
    have hpost : post.countP (fun t => decide (t.ID = id)) = 0 := by omega
    intro x hx
    rcases List.mem_append.mp hx with hx | hx
    · exact hpre x hx
    · have := (List.countP_eq_zero.mp hpost) x hx
      simpa using this
  · have hf : (TodoList.DeleteTodo id tl).2 = false := by simpa using h
    rw [DeleteTodo_false id tl hf]
    intro t hm ht
    exact h ((DeleteTodo_true_iff id tl).mpr ⟨t, hm, ht⟩)

/-- C18, witness: the list of `Test 1` and `Test 2`, whose identifiers differ. -/
theorem second_delete_returns_false_witness :
    testList.Todos.countP (fun t => decide (t.ID = [105, 100, 49])) ≤ 1 ∧
    TodoList.DeleteTodo [105, 100, 49] (TodoList.DeleteTodo [105, 100, 49] testList).1 =
      ((TodoList.DeleteTodo [105, 100, 49] testList).1, false) :=
  ⟨by decide, second_delete_returns_false testList [105, 100, 49] (by decide)⟩

/-- C18, counterexample to the claim as worded: in a list where two todos carry the same
ID, the first `DeleteTodo` removes the first of them and the second call removes the other
and returns true again. -/
theorem second_delete_returns_true :
    (TodoList.DeleteTodo [105, 100, 49] twinList).2 = true ∧
    (TodoList.DeleteTodo [105, 100, 49] (TodoList.DeleteTodo [105, 100, 49] twinList).1).2
      = true ∧
    (TodoList.DeleteTodo [105, 100, 49] (TodoList.DeleteTodo [105, 100, 49] twinList).1).1.Todos
      = [] := by
  decide

theorem filterLoop_eq (p : Todo → Bool) (l : List Todo) : ∀ acc : List Todo,
    l.foldl (fun acc todo => if p todo then acc ++ [todo] else acc) acc
      = acc ++ l.filter p := by
  induction l with
  | nil => intro acc; simp
  | cons t rest ih =>
    intro acc
    simp only [List.foldl_cons, List.filter_cons]
    rw [ih]
    by_cases h : p t = true
    · simp [h]
    · simp [h]

/-- C19 (GetFilteredTodos).  `GetFilteredTodos(FilterActive)` returns the todos with
`Completed == false` in their original order, `GetFilteredTodos(FilterCompleted)` those with
`Completed == true` in their original order, `GetFilteredTodos(FilterAll)` (and any other
filter value) the whole list; the call leaves the list unchanged, and a second call with
the same filter returns the same sequence. -/
theorem GetFilteredTodos_contract (tl : TodoList) :
    (TodoList.GetFilteredTodos FilterActive tl).2 = tl.Todos.filter (fun t => !t.Completed) ∧
    (TodoList.GetFilteredTodos FilterCompleted tl).2 = tl.Todos.filter (fun t => t.Completed) ∧
    (TodoList.GetFilteredTodos FilterAll tl).2 = tl.Todos ∧
    (∀ filter : Int, filter ≠ FilterActive → filter ≠ FilterCompleted →
      (TodoList.GetFilteredTodos filter tl).2 = tl.Todos) ∧
    (∀ filter : Int, (TodoList.GetFilteredTodos filter tl).1 = tl ∧
      (TodoList.GetFilteredTodos filter (TodoList.GetFilteredTodos filter tl).1).2
        = (TodoList.GetFilteredTodos filter tl).2) := by
  have hstate : ∀ filter : Int, (TodoList.GetFilteredTodos filter tl).1 = tl := by
    intro filter
    unfold TodoList.GetFilteredTodos
    split
    · rfl
    · split <;> rfl
  refine ⟨?_, ?_, ?_, ?_, fun filter => ⟨hstate filter, by rw [hstate filter]⟩⟩
  · unfold TodoList.GetFilteredTodos
    rw [if_pos rfl]
    have := filterLoop_eq (fun t => !t.Completed) tl.Todos []
    simpa using this
  · unfold TodoList.GetFilteredTodos
    rw [if_neg (by decide), if_pos rfl]
    have := filterLoop_eq (fun t => t.Completed) tl.Todos []
    simpa using this
  · unfold TodoList.GetFilteredTodos
    rw [if_neg (by decide), if_neg (by decide)]
  · intro filter h1 h2
    unfold TodoList.GetFilteredTodos
    rw [if_neg h1, if_neg h2]

/-- C19, witness: the list of an active and a completed todo. -/
theorem GetFilteredTodos_contract_witness :
    ((TodoList.GetFilteredTodos FilterActive mixedList).2.map fun t => t.Text) = [[65]] ∧
    ((TodoList.GetFilteredTodos FilterCompleted mixedList).2.map fun t => t.Text) = [[67]] ∧
    (TodoList.GetFilteredTodos 7 mixedList).2 = mixedList.Todos :=
  ⟨by rw [(GetFilteredTodos_contract mixedList).1]; decide,
    by rw [(GetFilteredTodos_contract mixedList).2.1]; decide,
    (GetFilteredTodos_contract mixedList).2.2.2.1 7 (by decide) (by decide)⟩

/-- When no suffix of the text measures less than one of its own prefixes, every start
position the loop passes over has a suffix that is too wide. -/
theorem findStart_min (measure : GoString → Int) (d : GoString)
    (hmono : ∀ j k : Nat, measure ((d.drop j).take k) ≤ measure (d.drop j))
    (c W : Int) (hW : 0 ≤ W) :
    ∀ (fuel : Nat) (s s' : Int), 0 ≤ s → s ≤ (d.length : Int) →
      findStart measure d c W fuel s = some s' →
      ∀ j : Int, s ≤ j → j < s' → W < measure (d.drop j.toNat) := by
  intro fuel
  induction fuel with
  | zero => intro s s' _ _ h; simp [findStart] at h
  | succ fuel ih =>
    intro s s' h0 h1 h j hj hjs
    unfold findStart at h
    by_cases hlt : s < (d.length : Int)
    · rw [if_pos hlt, sliceFrom_eq h0 h1, Option.some_bind] at h
      simp only at h
      rw [cursorOffset_some measure d c s, Option.some_bind] at h
      generalize hoff : (if c ≥ s ∧ c - s ≤ ((d.drop s.toNat).length : Int) then
        measure ((d.drop s.toNat).take (c - s).toNat) else 0) = off at h
      by_cases hfit : measure (d.drop s.toNat) ≤ W ∧ off ≤ W
      · rw [if_pos hfit] at h
        simp only [Option.some.injEq] at h
        omega
      · rw [if_neg hfit] at h
        by_cases hjeq : j = s
        · rw [hjeq]
          by_contra hle
          apply hfit
          refine ⟨by omega, ?_⟩
          rw [← hoff]
          split
          · have := hmono s.toNat (c - s).toNat
            omega
          · exact hW
        · exact ih (s + 1) s' (by omega) (by omega) h j (by omega) hjs
    · rw [if_neg hlt] at h
      simp only [Option.some.injEq] at h
      omega

/-- On a box whose cursor is within its text, the cursor computation of `Draw` does not
panic, whatever visible text it is given. -/
theorem cursorX_total (measure : GoString → Int) (tb : TextBox) (hc : CursorOK tb)
    (textX : Int) (v : GoString) : ∃ c, cursorX measure tb textX v = some c := by
  obtain ⟨hc0, hc1⟩ := hc
  unfold cursorX
  split
  · split
    · rw [sliceTo_eq hc0 hc1, Option.some_bind]
      split
      · simp only
        split
        · split
          · rw [sliceTo_eq (by omega) (by omega), Option.some_bind]; exact ⟨_, rfl⟩
          · exact ⟨_, rfl⟩
        · exact ⟨_, rfl⟩
      · exact ⟨_, rfl⟩
    · exact ⟨_, rfl⟩
  · exact ⟨_, rfl⟩

/-- Let `measure` be a measurement with `measure("") = 0`, `W ≥ 0`, and `content` a text
none of whose suffixes measures less than one of its own prefixes.  Then there is one start
index `s` such that for every cursor position in `[0, len(content)]` the visible text is
`content[s:]`: it fits, every longer suffix is too wide, and when the content is too wide
`s` is the `startPos` the loop ends with. -/
theorem visibleText_ignores_cursor (measure : GoString → Int) (hm0 : measure [] = 0)
    (content : GoString)
    (hmono : ∀ j k : Nat, measure ((content.drop j).take k) ≤ measure (content.drop j))
    (W : Int) (hW : 0 ≤ W) :
    ∃ s : Nat, s ≤ content.length ∧ measure (content.drop s) ≤ W ∧
      (∀ j : Nat, j < s → W < measure (content.drop j)) ∧
      (measure content ≤ W → s = 0) ∧
      (∀ c : Int, 0 ≤ c → c ≤ (content.length : Int) →
        visibleText measure content c W = some (content.drop s) ∧
        (W < measure content →
          findStart measure content c W (content.length + 1) 0 = some (s : Int))) ∧
      (∀ tb : TextBox, CursorOK tb → tb.Width - 26 = W →
        (if tb.Text = [] ∧ tb.Focused = false then tb.PlaceholderText else tb.Text) = content →
        ∃ d, Draw measure tb = some d ∧ d.visibleText = content.drop s) := by
  have hdraw : ∀ s : Nat,
      (∀ c : Int, 0 ≤ c → c ≤ (content.length : Int) →
        visibleText measure content c W = some (content.drop s) ∧
        (W < measure content →
          findStart measure content c W (content.length + 1) 0 = some (s : Int))) →
      ∀ tb : TextBox, CursorOK tb → tb.Width - 26 = W →
        (if tb.Text = [] ∧ tb.Focused = false then tb.PlaceholderText else tb.Text) = content →
        ∃ d, Draw measure tb = some d ∧ d.visibleText = content.drop s := by
    intro s hs tb hc hw hd
    have hrange : 0 ≤ tb.CursorPos ∧ tb.CursorPos ≤ (content.length : Int) := by
      obtain ⟨hc0, hc1⟩ := hc
      refine ⟨hc0, ?_⟩
      by_cases hph : tb.Text = [] ∧ tb.Focused = false
      · rw [hph.1] at hc1
        simp only [List.length_nil, Nat.cast_zero] at hc1
        omega
      · rw [if_neg hph] at hd
        rw [← hd]; exact hc1
    have hWeq : tb.Width - 8 * 2 - 10 = W := by omega
    obtain ⟨c, ec⟩ := cursorX_total measure tb hc (tb.X + 8) (content.drop s)
    unfold Draw
    simp only
    rw [hd, hWeq, (hs tb.CursorPos hrange.1 hrange.2).1, Option.some_bind, ec,
      Option.some_bind]
    exact ⟨_, rfl, rfl⟩
  by_cases hfit : measure content ≤ W
  · have hall : ∀ c : Int, 0 ≤ c → c ≤ (content.length : Int) →
        visibleText measure content c W = some (content.drop 0) ∧
        (W < measure content →
          findStart measure content c W (content.length + 1) 0 = some ((0 : Nat) : Int)) := by
      intro c _ _
      refine ⟨?_, fun h => ?_⟩
      · rw [visibleText_fits _ _ _ _ hfit]; rfl
      · omega
    exact ⟨0, Nat.zero_le _, by simpa using hfit, fun j hj => absurd hj (Nat.not_lt_zero j),
      fun _ => rfl, hall, hdraw 0 hall⟩
  · -- the start index found for the cursor at 0 serves every cursor
    obtain ⟨s₀, e₀, h0, h1, hfit₀⟩ := findStart_spec measure content 0 W (content.length + 1) 0
      (le_refl 0) (by omega) (by push_cast; omega)
    have hmin₀ := findStart_min measure content hmono 0 W hW _ 0 s₀ (le_refl 0) (by omega) e₀
    have hnil : ∀ s : Int, (content.length : Int) ≤ s → content.drop s.toNat = [] := by
      intro s hs
      apply List.drop_of_length_le
      omega
    have hv₀ : measure (content.drop s₀.toNat) ≤ W := by
      by_cases hlt : s₀ < (content.length : Int)
      · exact (hfit₀ hlt).1
      · rw [hnil s₀ (by omega), hm0]; exact hW
    have hall : ∀ c : Int, 0 ≤ c → c ≤ (content.length : Int) →
        visibleText measure content c W = some (content.drop s₀.toNat) ∧
        (W < measure content →
          findStart measure content c W (content.length + 1) 0
            = some ((s₀.toNat : Nat) : Int)) := by
      intro c hc0 hc1
      obtain ⟨s, e, hs0, hs1, hfits⟩ := findStart_spec measure content c W
        (content.length + 1) 0 (le_refl 0) (by omega) (by push_cast; omega)
      have hmin := findStart_min measure content hmono c W hW _ 0 s (le_refl 0) (by omega) e
      have hv : measure (content.drop s.toNat) ≤ W := by
        by_cases hlt : s < (content.length : Int)
        · exact (hfits hlt).1
        · rw [hnil s (by omega), hm0]; exact hW
      have hss : s = s₀ := by
        rcases lt_trichotomy s s₀ with hlt | heq | hgt
        · have := hmin₀ s hs0 hlt; omega
        · exact heq
        · have := hmin s₀ h0 hgt; omega
      have hcast : ((s₀.toNat : Nat) : Int) = s₀ := by omega
      refine ⟨?_, fun _ => by rw [hcast, ← hss]; exact e⟩
      unfold visibleText
      rw [if_pos (by omega), e, Option.some_bind, sliceFrom_eq hs0 hs1, Option.some_bind,
        if_neg (by omega), hss]
    refine ⟨s₀.toNat, by omega, hv₀, fun j hj => ?_, fun h => absurd h hfit, hall,
      hdraw _ hall⟩
    have := hmin₀ (j : Int) (by omega) (by omega)
    simpa using this

theorem timeSub_lt (t u : Int) : timeSub t u < 300000000 ↔ t - u < 300000000 := by
  unfold timeSub
  split
  · omega
  · split <;> omega

namespace TodoItem

theorem Update_viewing (inp : Input) (ti : TodoItem) (hv : ti.Editing = false) :
    Update inp ti = some (viewingTick inp (hover inp (updateComponentPositions ti))) := by
  unfold Update
  have : (hover inp (updateComponentPositions ti)).Editing = false := hv
  simp only [this]
  rfl

theorem Update_editing (inp : Input) (ti : TodoItem) (he : ti.Editing = true) :
    Update inp ti = editingTick inp (hover inp (updateComponentPositions ti)) := by
  unfold Update
  have : (hover inp (updateComponentPositions ti)).Editing = true := he
  simp only [this]
  rfl

theorem hover_Hovered (inp : Input) (ti : TodoItem) :
    (hover inp (updateComponentPositions ti)).Hovered = ti.Contains inp.cursorX inp.cursorY :=
  rfl

end TodoItem

/-- C12 (double-click promotion).  For a row in Viewing mode and a tick at time `t` on which
the primary button was just pressed with the pointer inside the row's bounds, `Update`
returns; afterwards the row is Editing exactly when `t` minus the stored last-click time is
below 300 ms, and the stored last-click time is `t`.  When the row enters Editing, its edit
box is focused and holds the record's text with the cursor at its end. -/
theorem double_click_promotion (ti : TodoItem) (hv : ti.Editing = false) (inp : Input)
    (hp : inp.mouseJustPressed = true)
    (hin : ti.Contains inp.cursorX inp.cursorY = true) :
    ∃ r, TodoItem.Update inp ti = some r ∧
      (r.item.Editing = true ↔ inp.now - ti.lastClickTime < 300000000) ∧
      r.item.lastClickTime = inp.now ∧
      (r.item.Editing = true → r.item.EditTextBox.Focused = true ∧
        r.item.EditTextBox.Text = r.item.Todo.Text ∧
        r.item.EditTextBox.CursorPos = (r.item.Todo.Text.length : Int)) := by
  refine ⟨_, TodoItem.Update_viewing inp ti hv, ?_⟩
  have hh := TodoItem.hover_Hovered inp ti
  rw [hin] at hh
  by_cases hd : inp.now - ti.lastClickTime < 300000000
  · have hd' : timeSub inp.now ti.lastClickTime < 300000000 := (timeSub_lt _ _).mpr hd
    simp only [TodoItem.viewingTick, TodoItem.doubleClick, hp, hh, Bool.and_self, if_true]
    have hlast : (TodoItem.hover inp (TodoItem.updateComponentPositions ti)).lastClickTime
        = ti.lastClickTime := rfl
    rw [hlast, if_pos hd']
    exact ⟨⟨fun _ => hd, fun _ => rfl⟩, trivial, fun _ => ⟨rfl, rfl, rfl⟩⟩
  · have hd' : ¬ timeSub inp.now ti.lastClickTime < 300000000 :=
      fun h => hd ((timeSub_lt _ _).mp h)
    simp only [TodoItem.viewingTick, TodoItem.doubleClick, hp, hh, Bool.and_self, if_true]
    have hlast : (TodoItem.hover inp (TodoItem.updateComponentPositions ti)).lastClickTime
        = ti.lastClickTime := rfl
    rw [hlast, if_neg hd']
    have hed : (TodoItem.hover inp (TodoItem.updateComponentPositions ti)).Editing = false := hv
    refine ⟨⟨fun h => ?_, fun h => absurd h hd⟩, trivial, fun h => ?_⟩
    · simp only [hed] at h
      exact absurd h (by simp)
    · simp only [hed] at h
      exact absurd h (by simp)

/-- C12, witness: clicks on the row of `buy milk` at `(100, 80)`.  A first-ever click does
not enter Editing; a second click 200 ms later does; a second click 500 ms later does
not. -/
theorem double_click_promotion_witness :
    milkRow.Editing = false ∧ milkRow.Contains 100 80 = true ∧
    (∃ r, TodoItem.Update (Input.click 100 80 1700000000000000000) milkRow = some r ∧
      (r.item.Editing = true ↔
        (Input.click 100 80 1700000000000000000).now - milkRow.lastClickTime < 300000000) ∧
      r.item.lastClickTime = (Input.click 100 80 1700000000000000000).now) ∧
    (TodoItem.Update (Input.click 100 80 1700000000000000000) milkRow).map
      (fun r => (r.item.Editing, r.item.lastClickTime)) = some (false, 1700000000000000000) ∧
    ((TodoItem.Update (Input.click 100 80 1700000000000000000) milkRow).bind fun r =>
      (TodoItem.Update (Input.click 100 80 1700000000200000000) r.item).map
        fun r => (r.item.Editing, r.item.lastClickTime)) = some (true, 1700000000200000000) ∧
    ((TodoItem.Update (Input.click 100 80 1700000000000000000) milkRow).bind fun r =>
      (TodoItem.Update (Input.click 100 80 1700000000500000000) r.item).map
        fun r => (r.item.Editing, r.item.lastClickTime)) = some (false, 1700000000500000000) :=
  have ⟨r, h1, h2, h3, _⟩ := double_click_promotion milkRow rfl
    (Input.click 100 80 1700000000000000000) rfl (by decide)
  ⟨rfl, by decide, ⟨r, h1, h2, h3⟩, by decide, by decide, by decide⟩

theorem removeBefore_Focused {tb tb' : TextBox} (h : removeBefore tb = some tb') :
    tb'.Focused = tb.Focused := by
  unfold removeBefore at h
  split at h
  · cases ha : sliceTo tb.Text (tb.CursorPos - 1) with
    | none => rw [ha] at h; simp at h
    | some a =>
      cases hb : sliceFrom tb.Text tb.CursorPos with
      | none => rw [ha, hb] at h; simp at h
      | some b =>
        rw [ha, hb] at h
        simp only [Option.some_bind, Option.some.injEq] at h
        rw [← h]
  · simp only [Option.some.injEq] at h
    rw [← h]

theorem inputRune_Focused {r : Int} {tb tb' : TextBox} (h : inputRune r tb = some tb') :
    tb'.Focused = tb.Focused := by
  unfold inputRune at h
  split at h
  · simp only [Option.some.injEq] at h
    rw [← h]
  · split at h
    · exact removeBefore_Focused h
    · split at h
      · cases ha : sliceTo tb.Text tb.CursorPos with
        | none => rw [ha] at h; simp at h
        | some a =>
          cases hb : sliceFrom tb.Text tb.CursorPos with
          | none => rw [ha, hb] at h; simp at h
          | some b =>
            rw [ha, hb] at h
            simp only [Option.some_bind, Option.some.injEq] at h
            rw [← h]
      · simp only [Option.some.injEq] at h
        rw [← h]

theorem inputRunes_Focused (rs : List Int) : ∀ {tb tb' : TextBox},
    inputRunes rs tb = some tb' → tb'.Focused = tb.Focused := by
  induction rs with
  | nil =>
    intro tb tb' h
    simp only [inputRunes, Option.some.injEq] at h
    rw [← h]
  | cons r rs ih =>
    intro tb tb' h
    simp only [inputRunes] at h
    cases h1 : inputRune r tb with
    | none => rw [h1] at h; simp at h
    | some t =>
      rw [h1, Option.some_bind] at h
      rw [ih h, inputRune_Focused h1]

theorem navKeys_Focused (inp : Input) (tb : TextBox) :
    (navKeys inp tb).Focused = tb.Focused := by
  unfold navKeys
  simp only
  repeat' split
  all_goals rfl

theorem deleteKey_Focused {inp : Input} {tb tb' : TextBox} (h : deleteKey inp tb = some tb') :
    tb'.Focused = tb.Focused := by
  unfold deleteKey at h
  split at h
  · cases ha : sliceTo tb.Text tb.CursorPos with
    | none => rw [ha] at h; simp at h
    | some a =>
      cases hb : sliceFrom tb.Text (tb.CursorPos + 1) with
      | none => rw [ha, hb] at h; simp at h
      | some b =>
        rw [ha, hb] at h
        simp only [Option.some_bind, Option.some.injEq] at h
        rw [← h]
  · simp only [Option.some.injEq] at h
    rw [← h]

theorem backspaceKey_Focused {inp : Input} {tb tb' : TextBox}
    (h : backspaceKey inp tb = some tb') : tb'.Focused = tb.Focused := by
  unfold backspaceKey at h
  split at h
  · exact removeBefore_Focused h
  · simp only [Option.some.injEq] at h
    rw [← h]

/-- A tick of `TextBox.Update` leaves the focus as the click handling at its start set
it. -/
theorem Update_Focused {inp : Input} {tb tb' : TextBox} (h : TextBox.Update inp tb = some tb') :
    tb'.Focused = (clickFocus inp tb).Focused := by
  unfold TextBox.Update at h
  simp only at h
  split at h
  · simp only [Option.some.injEq] at h
    rw [← h]
  · cases h1 : inputRunes inp.chars (blink inp (clickFocus inp tb)) with
    | none => rw [h1] at h; simp at h
    | some t1 =>
      rw [h1, Option.some_bind] at h
      cases h2 : deleteKey inp (navKeys inp t1) with
      | none => rw [h2] at h; simp at h
      | some t2 =>
        rw [h2, Option.some_bind] at h
        rw [backspaceKey_Focused h, deleteKey_Focused h2, navKeys_Focused,
          inputRunes_Focused inp.chars h1, blink_Focused]

namespace TodoItem

theorem commitOnEnter_buttons (inp : Input) (ti : TodoItem) :
    (commitOnEnter inp ti).Checkbox = ti.Checkbox ∧
    (commitOnEnter inp ti).DeleteBtn = ti.DeleteBtn ∧
    (commitOnEnter inp ti).EditTextBox = ti.EditTextBox ∧
    (commitOnEnter inp ti).Todo.Completed = ti.Todo.Completed := by
  unfold commitOnEnter
  split
  · split
    · exact ⟨rfl, rfl, rfl, rfl⟩
    · exact ⟨rfl, rfl, rfl, rfl⟩
  · exact ⟨rfl, rfl, rfl, rfl⟩

theorem cancelOnEscape_buttons (inp : Input) (ti : TodoItem) :
    (cancelOnEscape inp ti).Checkbox = ti.Checkbox ∧
    (cancelOnEscape inp ti).DeleteBtn = ti.DeleteBtn ∧
    (cancelOnEscape inp ti).Todo = ti.Todo := by
  unfold cancelOnEscape
  split
  · exact ⟨rfl, rfl, rfl⟩
  · exact ⟨rfl, rfl, rfl⟩

/-- The edit box of a row, moved to its place in the row, keeps a valid cursor. -/
theorem positioned_CursorOK (inp : Input) (ti : TodoItem) (hc : CursorOK ti.EditTextBox) :
    CursorOK (hover inp (updateComponentPositions ti)).EditTextBox := hc

end TodoItem

/-- C16 (editing suppresses activation).  For a row with `Editing == true` at the start of
a tick and any input: whenever `Update` returns, it has called neither the checkbox callback
nor the delete callback, the `Hovered` and `Pressed` flags of both buttons are what they
were, and so is the record's `Completed` flag; and `Update` does return when the cursor of
the edit box is within its text. -/
theorem editing_suppresses_activation (ti : TodoItem) (he : ti.Editing = true)
    (inp : Input) :
    (∀ r, TodoItem.Update inp ti = some r →
      r.toggleCalls = 0 ∧ r.deleteCalls = 0 ∧
      r.item.Checkbox.Hovered = ti.Checkbox.Hovered ∧
      r.item.Checkbox.Pressed = ti.Checkbox.Pressed ∧
      r.item.DeleteBtn.Hovered = ti.DeleteBtn.Hovered ∧
      r.item.DeleteBtn.Pressed = ti.DeleteBtn.Pressed ∧
      r.item.Todo.Completed = ti.Todo.Completed) ∧
    (CursorOK ti.EditTextBox → ∃ r, TodoItem.Update inp ti = some r) := by
  rw [TodoItem.Update_editing inp ti he]
  unfold TodoItem.editingTick
  constructor
  · intro r h
    cases hb : TextBox.Update inp
        (TodoItem.hover inp (TodoItem.updateComponentPositions ti)).EditTextBox with
    | none => rw [hb] at h; simp at h
    | some box =>
      rw [hb, Option.some_bind] at h
      simp only [Option.some.injEq] at h
      rw [← h]
      simp only
      have h1 := TodoItem.cancelOnEscape_buttons inp (TodoItem.commitOnEnter inp
        { TodoItem.hover inp (TodoItem.updateComponentPositions ti) with EditTextBox := box })
      have h2 := TodoItem.commitOnEnter_buttons inp
        { TodoItem.hover inp (TodoItem.updateComponentPositions ti) with EditTextBox := box }
      rw [h1.1, h1.2.1, h1.2.2, h2.1, h2.2.1, h2.2.2.2]
      exact ⟨trivial, trivial, rfl, rfl, rfl, rfl, rfl⟩
  · intro hc
    obtain ⟨box, hb, _⟩ := Update_ok inp (TodoItem.positioned_CursorOK inp ti hc)
    rw [hb, Option.some_bind]
    exact ⟨_, rfl⟩

/-- C16, witness: the row of `buy milk` in edit mode, with a press on its checkbox. -/
theorem editing_suppresses_activation_witness :
    (editingRow [97]).Editing = true ∧ CursorOK (editingRow [97]).EditTextBox ∧
    (editingRow [97]).Checkbox.Contains 30 90 = true ∧
    ∃ r, TodoItem.Update (Input.click 30 90 2000) (editingRow [97]) = some r ∧
      r.toggleCalls = 0 ∧ r.deleteCalls = 0 ∧
      r.item.Checkbox.Pressed = (editingRow [97]).Checkbox.Pressed :=
  have h := editing_suppresses_activation (editingRow [97]) rfl (Input.click 30 90 2000)
  have ⟨r, hr⟩ := h.2 (by decide)
  ⟨rfl, by decide, by decide, r, hr, (h.1 r hr).1, (h.1 r hr).2.1, (h.1 r hr).2.2.2.1⟩

/-- C14 (edit cancel, for a tick that does not also submit or take the focus away).  For a
row in Editing mode whose edit box is focused with its cursor within the draft, any draft,
and any tick that carries the Escape signal, no Enter signal and no fresh primary click
outside the edit box: `Update` returns, the row is in Viewing mode afterwards and the
record (its `Text` and `Completed` flag included) is what it was before the tick. -/
theorem edit_cancel (ti : TodoItem) (he : ti.Editing = true)
    (hf : ti.EditTextBox.Focused = true) (hc : CursorOK ti.EditTextBox) (inp : Input)
    (hesc : inp.keyEscape = true) (hent : inp.keyEnter = false)
    (hclick : inp.mouseJustPressed = true →
      (TodoItem.updateComponentPositions ti).EditTextBox.Contains inp.cursorX inp.cursorY
        = true) :
    ∃ r, TodoItem.Update inp ti = some r ∧ r.item.Editing = false ∧
      r.item.Todo = ti.Todo := by
  rw [TodoItem.Update_editing inp ti he]
  unfold TodoItem.editingTick
  obtain ⟨box, hb, _⟩ := Update_ok inp (TodoItem.positioned_CursorOK inp ti hc)
  have hfoc : box.Focused = true := by
    rw [Update_Focused hb]
    unfold clickFocus
    split
    · rename_i hm
      exact hclick hm
    · exact hf
  rw [hb, Option.some_bind]
  refine ⟨_, rfl, ?_, ?_⟩
  · simp only
    unfold TodoItem.cancelOnEscape
    have h2 := TodoItem.commitOnEnter_buttons inp
      { TodoItem.hover inp (TodoItem.updateComponentPositions ti) with EditTextBox := box }
    rw [h2.2.2.1]
    simp [TextBox.IsEscapePressed, hfoc, hesc]
  · simp only
    rw [(TodoItem.cancelOnEscape_buttons inp _).2.2]
    unfold TodoItem.commitOnEnter
    simp only [TextBox.IsEnterPressed, hent, Bool.and_false]
    rfl

/-- C14, witness: record `buy milk`, draft `buy milk and eggs`, a tick with Escape alone:
the row is Viewing and the record still reads `buy milk`. -/
theorem edit_cancel_witness :
    (editingRow [98, 117, 121, 32, 109, 105, 108, 107, 32, 97, 110, 100, 32, 101, 103, 103,
      115]).Todo.Text = [98, 117, 121, 32, 109, 105, 108, 107] ∧
    ∃ r, TodoItem.Update (Input.escape 2000) (editingRow [98, 117, 121, 32, 109, 105, 108,
        107, 32, 97, 110, 100, 32, 101, 103, 103, 115]) = some r ∧
      r.item.Editing = false ∧
      r.item.Todo = (editingRow [98, 117, 121, 32, 109, 105, 108, 107, 32, 97, 110, 100, 32,
        101, 103, 103, 115]).Todo :=
  ⟨rfl, edit_cancel _ rfl rfl (by decide) (Input.escape 2000) rfl rfl
    (fun h => absurd h (by decide))⟩

/-- C14, counterexample to the claim as worded: a tick that carries both the Enter and the
Escape signal.  The Enter branch runs first and writes the draft `buy milk and eggs` into
the record `buy milk`; the Escape branch then only leaves the edit mode. -/
theorem cancel_with_submit_changes_record :
    (editingRow [98, 117, 121, 32, 109, 105, 108, 107, 32, 97, 110, 100, 32, 101, 103, 103,
      115]).Editing = true ∧
    (editingRow [98, 117, 121, 32, 109, 105, 108, 107, 32, 97, 110, 100, 32, 101, 103, 103,
      115]).EditTextBox.Focused = true ∧
    (editingRow [98, 117, 121, 32, 109, 105, 108, 107, 32, 97, 110, 100, 32, 101, 103, 103,
      115]).Todo.Text = [98, 117, 121, 32, 109, 105, 108, 107] ∧
    (TodoItem.Update { Input.escape 2000 with keyEnter := true }
      (editingRow [98, 117, 121, 32, 109, 105, 108, 107, 32, 97, 110, 100, 32, 101, 103, 103,
        115])).map (fun r => (r.item.Editing, r.item.Todo.Text)) =
      some (false, [98, 117, 121, 32, 109, 105, 108, 107, 32, 97, 110, 100, 32, 101, 103,
        103, 115]) := by
  decide

/-- A tick with Escape and a fresh primary click outside the edit box: the click takes the
focus away first, so the Escape signal is not seen and the row stays in Editing mode. -/
theorem cancel_with_click_outside_keeps_editing :
    (TodoItem.Update { Input.escape 2000 with mouseJustPressed := true }
      (editingRow [97])).map (fun r => (r.item.Editing, r.item.EditTextBox.Focused)) =
      some (true, false) := by
  decide

theorem Update_enter {tb : TextBox} (hf : tb.Focused = true) (now : Int) :
    TextBox.Update (Input.enter now) tb = some (blink (Input.enter now) tb) := by
  simp [TextBox.Update, clickFocus, Input.enter, Input.idle, hf, navKeys, deleteKey,
    backspaceKey, inputRunes]

theorem TodoItem.commitOnEnter_pos (inp : Input) (ti : TodoItem)
    (h1 : ti.EditTextBox.Focused = true) (h2 : inp.keyEnter = true)
    (h3 : ti.EditTextBox.Text ≠ []) :
    TodoItem.commitOnEnter inp ti =
      { ti with Todo := ti.Todo.SetText ti.EditTextBox.Text, Editing := false } := by
  unfold TodoItem.commitOnEnter
  rw [if_pos (by simp [TextBox.IsEnterPressed, h1, h2]),
    if_pos (by simpa [TextBox.GetText] using List.length_pos.mpr h3)]
  rfl

theorem TodoItem.commitOnEnter_nil (inp : Input) (ti : TodoItem)
    (h3 : ti.EditTextBox.Text = []) : TodoItem.commitOnEnter inp ti = ti := by
  unfold TodoItem.commitOnEnter
  split
  · rw [if_neg (by simp [TextBox.GetText, h3])]
  · rfl

theorem TodoItem.cancelOnEscape_noop (inp : Input) (ti : TodoItem)
    (h : inp.keyEscape = false) : TodoItem.cancelOnEscape inp ti = ti := by
  unfold TodoItem.cancelOnEscape
  rw [if_neg (by simp [TextBox.IsEscapePressed, h])]

/-- What the Enter key does in Editing mode.  On a tick that carries the Enter signal
alone, a row whose focused edit box holds a draft of non-zero length writes that draft, byte
for byte, into the record and returns to Viewing mode; a draft of length zero leaves the
record unchanged and the row in Editing mode. -/
theorem edit_commit_raw (ti : TodoItem) (he : ti.Editing = true)
    (hf : ti.EditTextBox.Focused = true) (now : Int) :
    ∃ r, TodoItem.Update (Input.enter now) ti = some r ∧
      (ti.EditTextBox.Text ≠ [] →
        r.item.Todo.Text = ti.EditTextBox.Text ∧ r.item.Editing = false) ∧
      (ti.EditTextBox.Text = [] → r.item.Todo = ti.Todo ∧ r.item.Editing = true) := by
  rw [TodoItem.Update_editing _ ti he]
  unfold TodoItem.editingTick
  have hf' : (TodoItem.hover (Input.enter now)
      (TodoItem.updateComponentPositions ti)).EditTextBox.Focused = true := hf
  rw [Update_enter hf', Option.some_bind]
  have hbt : (blink (Input.enter now) (TodoItem.hover (Input.enter now)
      (TodoItem.updateComponentPositions ti)).EditTextBox).Text = ti.EditTextBox.Text :=
    blink_Text _ _
  have hbf : (blink (Input.enter now) (TodoItem.hover (Input.enter now)
      (TodoItem.updateComponentPositions ti)).EditTextBox).Focused = true := by
    rw [blink_Focused]; exact hf'
  refine ⟨_, rfl, fun hne => ?_, fun hnil => ?_⟩
  · simp only
    rw [TodoItem.cancelOnEscape_noop _ _ rfl,
      TodoItem.commitOnEnter_pos _ _ hbf rfl (by rw [hbt]; exact hne)]
    exact ⟨hbt, rfl⟩
  · simp only
    rw [TodoItem.cancelOnEscape_noop _ _ rfl,
      TodoItem.commitOnEnter_nil _ _ (by rw [hbt]; exact hnil)]
    exact ⟨rfl, he⟩

/-- C13, the code at the failing input: record `buy milk`, draft ` buy milk and eggs `
with one space before and one after, a tick with Enter alone.  The row returns to Viewing
and the record holds the draft with both spaces, not the trimmed `buy milk and eggs`. -/
theorem commit_keeps_whitespace :
    (TodoItem.Update (Input.enter 2000)
      (editingRow [32, 98, 117, 121, 32, 109, 105, 108, 107, 32, 97, 110, 100, 32, 101, 103,
        103, 115, 32])).map (fun r => (r.item.Editing, r.item.Todo.Text)) =
      some (false, [32, 98, 117, 121, 32, 109, 105, 108, 107, 32, 97, 110, 100, 32, 101, 103,
        103, 115, 32]) ∧
    (TodoItem.Update (Input.enter 2000)
      (editingRow [98, 117, 121, 32, 109, 105, 108, 107, 32, 97, 110, 100, 32, 101, 103,
        103, 115])).map (fun r => (r.item.Editing, r.item.Todo.Text)) =
      some (false, [98, 117, 121, 32, 109, 105, 108, 107, 32, 97, 110, 100, 32, 101, 103,
        103, 115]) := by
  decide

/-- C15, the code at the failing input: record `buy milk`, a draft of three spaces, a tick
with Enter alone and no Escape.  The row leaves Editing mode and the record's text becomes
the three spaces.  With the empty draft the row stays in Editing mode and the record keeps
`buy milk`. -/
theorem whitespace_draft_is_committed :
    (TodoItem.Update (Input.enter 2000) (editingRow [32, 32, 32])).map
      (fun r => (r.item.Editing, r.item.Todo.Text)) = some (false, [32, 32, 32]) ∧
    (TodoItem.Update (Input.enter 2000) (editingRow [])).map
      (fun r => (r.item.Editing, r.item.Todo.Text)) =
      some (true, [98, 117, 121, 32, 109, 105, 108, 107]) := by
  decide

theorem boundScan_ge : ∀ (s : GoString) (skip : Nat) (fx maxX : Int),
    maxX ≤ boundScan s skip fx maxX := by
  intro s
  induction s with
  | nil => intro skip fx maxX; simp [boundScan]
  | cons b rest ih =>
    intro skip fx maxX
    cases skip with
    | succ k => simp only [boundScan]; exact ih k fx maxX
    | zero =>
      simp only [boundScan]
      split
      · exact ih 0 0 maxX
      · exact le_trans (le_max_left _ _) (ih _ _ _)

theorem firstRuneWidth_singleByte (b : Byte) (rest : GoString) (hb : b.val < 128) :
    firstRuneWidth (b :: rest) = 1 := by
  simp [firstRuneWidth, hb]

/-- Scanning a string of single-byte characters followed by more text never gives less
than scanning the single-byte part alone. -/
theorem boundScan_append (a b : GoString) (ha : singleByte a) : ∀ (fx maxX : Int),
    boundScan a 0 fx maxX ≤ boundScan (a ++ b) 0 fx maxX := by
  induction a with
  | nil => intro fx maxX; simp only [boundScan, List.nil_append]; exact boundScan_ge b 0 fx maxX
  | cons x a ih =>
    intro fx maxX
    have hx : x.val < 128 := ha x (by simp)
    have ha' : singleByte a := fun y hy => ha y (by simp [hy])
    simp only [List.cons_append, boundScan, firstRuneWidth_singleByte x _ hx]
    split
    · exact ih ha' 0 maxX
    · exact ih ha' _ _

theorem boundStringMaxX_nil : boundStringMaxX [] = 0 := rfl

theorem singleByte_take {s : GoString} (h : singleByte s) (k : Nat) : singleByte (s.take k) :=
  fun b hb => h b (List.mem_of_mem_take hb)

theorem singleByte_drop {s : GoString} (h : singleByte s) (k : Nat) : singleByte (s.drop k) :=
  fun b hb => h b (List.mem_of_mem_drop hb)

theorem singleByte_replicate (n : Nat) (b : Byte) (hb : b.val < 128) :
    singleByte (List.replicate n b) := by
  intro x hx
  rw [List.eq_of_mem_replicate hx]
  exact hb

/-- On text of single-byte characters the library measurement never grows when the text
is cut to a prefix. -/
theorem boundStringMaxX_take_le {s : GoString} (h : singleByte s) (k : Nat) :
    boundStringMaxX (s.take k) ≤ boundStringMaxX s := by
  have := boundScan_append (s.take k) (s.drop k) (singleByte_take h k) 0 0
  rw [List.take_append_drop] at this
  exact this


/-- C7 (viewport fits, for a non-negative available width).  With the measurement of the
rendering library, for every box with `0 ≤ CursorPos ≤ len(Text)` whose available width
`W = Width - 26` is not negative: `Draw` runs without a panic and the text it draws
measures at most `W`, whatever the content; and when the content consists of single-byte
characters (every byte below 128) or is wider than `W`, the cursor bar, when drawn, is at
most `W` to the right of the start of the drawn text. -/
theorem viewport_fits (tb : TextBox) (hc : CursorOK tb) (hW : 0 ≤ tb.Width - 26) :
    ∃ d, Draw boundStringMaxX tb = some d ∧
      boundStringMaxX d.visibleText ≤ tb.Width - 26 ∧
      (singleByte tb.Text ∨ tb.Width - 26 < boundStringMaxX tb.Text →
        ∀ cx, d.cursorX = some cx → cx - d.textX ≤ tb.Width - 26) := by
  obtain ⟨d, hd, hv, hcx⟩ := Draw_fits boundStringMaxX boundStringMaxX_nil tb hc hW
  refine ⟨d, hd, hv, fun h => hcx (fun hfit => ?_)⟩
  rcases h with hsb | hwide
  · exact boundStringMaxX_take_le hsb _
  · omega

/-- C7, witness: the box 74 pixels wide holding twenty letters `a`. -/
theorem viewport_fits_witness :
    CursorOK longBox ∧ 0 ≤ longBox.Width - 26 ∧ singleByte longBox.Text ∧
    ∃ d, Draw boundStringMaxX longBox = some d ∧
      boundStringMaxX d.visibleText ≤ longBox.Width - 26 ∧
      ∀ cx, d.cursorX = some cx → cx - d.textX ≤ longBox.Width - 26 :=
  have ⟨d, h1, h2, h3⟩ := viewport_fits longBox (by decide) (by decide)
  ⟨by decide, by decide, singleByte_replicate 20 97 (by decide), d, h1, h2,
    h3 (Or.inl (singleByte_replicate 20 97 (by decide)))⟩

/-- The cursor bar of a text that fits, with the cursor inside a multi-byte character: the
euro sign measures 6 pixels and fits the 6 available pixels, but the two bytes before the
cursor are measured as two glyphs, so the bar is drawn 13 pixels to the right. -/
theorem cursor_offset_inside_rune :
    CursorOK euroBox ∧ euroBox.Width - 26 = 6 ∧ boundStringMaxX euroBox.Text = 6 ∧
    Draw boundStringMaxX euroBox
      = some { visibleText := [0xE2, 0x82, 0xAC], textX := 28, cursorX := some 41 } := by
  decide

/-- C20 (the viewport does not depend on the cursor, for single-byte content).  With the
measurement of the rendering library, for every content whose bytes are all below 128 and
every `W ≥ 0` there is one start index `s` such that for every cursor position in
`[0, len(content)]` the visible slice computed by `Draw` is `content[s:]`: it fits, every
longer suffix is too wide (so it is the longest suffix that fits, and the whole content
when that fits), and when the content is too wide `s` is the `startPos` the loop ends
with, so the truncate-from-the-end loop removes nothing.  `Draw` on any box showing that
content with `Width - 26 = W` and its cursor within its text does not panic and hands
`content[s:]` to the text renderer. -/
theorem viewport_ignores_cursor (content : GoString) (hsb : singleByte content)
    (W : Int) (hW : 0 ≤ W) :
    ∃ s : Nat, s ≤ content.length ∧ boundStringMaxX (content.drop s) ≤ W ∧
      (∀ j : Nat, j < s → W < boundStringMaxX (content.drop j)) ∧
      (boundStringMaxX content ≤ W → s = 0) ∧
      (∀ c : Int, 0 ≤ c → c ≤ (content.length : Int) →
        visibleText boundStringMaxX content c W = some (content.drop s) ∧
        (W < boundStringMaxX content →
          findStart boundStringMaxX content c W (content.length + 1) 0 = some (s : Int))) ∧
      (∀ tb : TextBox, CursorOK tb → tb.Width - 26 = W →
        (if tb.Text = [] ∧ tb.Focused = false then tb.PlaceholderText else tb.Text) = content →
        ∃ d, Draw boundStringMaxX tb = some d ∧ d.visibleText = content.drop s) :=
  visibleText_ignores_cursor boundStringMaxX boundStringMaxX_nil content
    (fun j k => boundStringMaxX_take_le (singleByte_drop hsb j) k) W hW

/-- C20, witness: twenty letters in a 48-pixel viewport, the cursor at the end and at the
start: the same seven last letters are shown. -/
theorem viewport_ignores_cursor_witness :
    singleByte (List.replicate 20 (97 : Byte)) ∧ (0 : Int) ≤ 48 ∧
    ∃ s : Nat, s ≤ (List.replicate 20 (97 : Byte)).length ∧
      boundStringMaxX ((List.replicate 20 (97 : Byte)).drop s) ≤ 48 ∧
      visibleText boundStringMaxX (List.replicate 20 97) 20 48
        = some ((List.replicate 20 (97 : Byte)).drop s) ∧
      visibleText boundStringMaxX (List.replicate 20 97) 0 48
        = some ((List.replicate 20 (97 : Byte)).drop s) :=
  have ⟨s, h1, h2, _, _, h5, _⟩ := viewport_ignores_cursor (List.replicate 20 97)
    (singleByte_replicate 20 97 (by decide)) 48 (by decide)
  ⟨singleByte_replicate 20 97 (by decide), by decide, s, h1, h2, (h5 20 (by decide) (by decide)).1,
    (h5 0 (by decide) (by decide)).1⟩

/-- C20, counterexample to the claim as worded: the content `a€` (bytes `61 e2 82 ac`) in
a viewport of 6 pixels, room for one glyph.  With the cursor at the end the euro sign is
shown; with the cursor one byte to the left, inside the euro sign, only its last byte is
shown, although the euro sign is the longest suffix that fits. -/
theorem viewport_depends_on_cursor_inside_rune :
    (0 : Int) ≤ 6 ∧ boundStringMaxX [0xE2, 0x82, 0xAC] ≤ 6 ∧
    visibleText boundStringMaxX [0x61, 0xE2, 0x82, 0xAC] 4 6 = some [0xE2, 0x82, 0xAC] ∧
    visibleText boundStringMaxX [0x61, 0xE2, 0x82, 0xAC] 3 6 = some [0xAC] ∧
    (Draw boundStringMaxX { euroBox with Text := [0x61, 0xE2, 0x82, 0xAC], CursorPos := 4 }).map
      (fun d => d.visibleText) = some [0xE2, 0x82, 0xAC] ∧
    (Draw boundStringMaxX { euroBox with Text := [0x61, 0xE2, 0x82, 0xAC], CursorPos := 3 }).map
      (fun d => d.visibleText) = some [0xAC] := by
  decide

/-- The library measurement agrees with the fixed-width count on the box of twenty
letters: the same seven last letters are shown with the cursor bar at their left edge. -/
theorem longBox_library_measurement :
    boundStringMaxX longBox.Text = measure7x13 longBox.Text ∧
    Draw boundStringMaxX longBox = Draw measure7x13 longBox := by
  decide

end Todo
